import Mathlib

/-!
# Verification of the 28-day consistency scoring engine

Shallow embedding of `src/scoring.ts` (consistency-score repository).

Modelling conventions:
* A JS `Date` instant is an `Int` of milliseconds since the Unix epoch; an
  *invalid* Date (NaN time value) is modelled by `Option Int = none`, since
  `Intl.DateTimeFormat.format` throws `RangeError` on an invalid Date.
* A civil date string `"YYYY-MM-DD"` is represented by its day number since
  the epoch (an `Int`).  For the dates the program manipulates, lexicographic
  comparison of the strings coincides with comparison of day numbers, and
  `new Date("YYYY-MM-DD")` yields the UTC-midnight instant
  `dayNumber * 86400000`.
* An IANA timezone is modelled by its offset function (milliseconds east of
  UTC at a given instant); the runtime's timezone database is a partial map
  from identifier strings to zones, `none` meaning the identifier is
  unrecognized (then `Intl.DateTimeFormat` construction throws `RangeError`).
* The host process timezone is UTC (the Node default in the deployment and CI
  environments), so `Date.prototype.setDate(getDate() - 1)` subtracts exactly
  86 400 000 ms.
* JS numbers are modelled by `ℚ` (exact arithmetic); `Math.round` is `round`
  (floor of x + 1/2, matching JS round-half-up), `Math.floor` of an integer
  quotient is `Int.fdiv`.
* Exceptions escaping a function are modelled by `Option`: `none` means the
  whole call throws.
-/

/-- Milliseconds per day. -/
def msPerDay : Int := 86400000

/-- The fixed scoring window, `WINDOW_DAYS` in `scoring.ts`. -/
def WINDOW_DAYS : Nat := 28

/-- A raw exercise session (`Session` in `types.ts`).
`timestamp` is `none` for an invalid Date; `durationSec` is `none` when the
field is missing or not a number (`Number(x)` is NaN). -/
structure Session where
  id : String
  timestamp : Option Int
  durationSec : Option ℚ
deriving DecidableEq, Repr

/-- A timezone: its UTC offset (ms east of UTC) as a function of the instant,
capturing DST and historical offset changes. -/
structure Timezone where
  offset : Int → Int

/-- The runtime's timezone database: identifier string to zone, `none` for an
unrecognized identifier. -/
def TZDb : Type := String → Option Timezone

/-- One per-calendar-day aggregate (`ActiveDay` in `types.ts`). -/
structure ActiveDay where
  date : Int
  sessionCount : Nat
  totalDurationSec : ℚ
deriving DecidableEq, Repr

/-- Embedding of `DayActivity` in `types.ts`: one chart slot. -/
structure DayActivity where
  date : Int
  hasActivity : Bool
  sessionCount : Nat
deriving DecidableEq, Repr

/-- Embedding of `ConsistencyMetadata` in `types.ts`. -/
structure ConsistencyMetadata where
  totalSessions : Nat
  activeDays : Nat
  longestStreak : Nat
  longestGap : Int
  averageGap : ℚ
  daysSinceLastSession : Int
deriving DecidableEq, Repr

/-- Embedding of `ScoreBreakdown` in `types.ts`. -/
structure ScoreBreakdown where
  baseScore : ℚ
  distributionBonus : ℚ
  streakBonus : ℚ
  recencyBonus : ℚ
deriving DecidableEq, Repr

/-- The result object (`ConsistencyScore` in `types.ts`). -/
structure ConsistencyScore where
  score : Int
  explanations : List String
  chartData : List DayActivity
  metadata : ConsistencyMetadata
  breakdown : ScoreBreakdown
deriving DecidableEq, Repr

/-- Scoring input (`ScoreInput` in `types.ts`), after the entry point's
defaulting of `referenceDate` and `timezone` has been applied. -/
structure ScoreInput where
  sessions : List Session
  referenceDate : Int
  timezone : String
deriving DecidableEq, Repr

/-- Embedding of `toLocalDateString` in `scoring.ts`: format an instant as its civil date
in the given zone.  Throws (`none`) when the timezone identifier is
unrecognized (the `Intl.DateTimeFormat` constructor) or the Date is invalid
(`formatter.format`).  The civil date of instant `t` is the floor of the
zone-local wall-clock time divided by the day length. -/
def toLocalDateString (db : TZDb) (date : Option Int) (timezone : String) :
    Option Int :=
  match db timezone, date with
  | none, _ => none
  | some _, none => none
  | some tz, some t => some (Int.fdiv (t + tz.offset t) msPerDay)

/-- Duration normalization inside `groupSessionsByDay`:
`Math.max(0, Number(session.durationSec) || 0)`. -/
def normalizeDuration (d : Option ℚ) : ℚ := max 0 (d.getD 0)

/-- One iteration of the `groupSessionsByDay` loop body: bump the bucket for
civil date `d`, creating it (in insertion order) if absent. -/
def addSession (days : List ActiveDay) (d : Int) (dur : ℚ) : List ActiveDay :=
  if days.any (fun a => a.date = d) then
    days.map (fun a =>
      if a.date = d then
        { a with sessionCount := a.sessionCount + 1,
                 totalDurationSec := a.totalDurationSec + dur }
      else a)
  else
    days ++ [⟨d, 1, dur⟩]

/-- The `groupSessionsByDay` loop over sessions, accumulating the `Map`
contents in insertion order; a formatting exception aborts the whole call. -/
def groupAux (db : TZDb) (timezone : String) :
    List Session → List ActiveDay → Option (List ActiveDay)
  | [], acc => some acc
  | sess :: rest, acc =>
    match toLocalDateString db sess.timestamp timezone with
    | none => none
    | some d =>
      groupAux db timezone rest
        (addSession acc d (normalizeDuration sess.durationSec))

/-- The sort key used by `groupSessionsByDay`'s final
`sort((a, b) => a.date.localeCompare(b.date))`. -/
def dayLE (a b : ActiveDay) : Prop := a.date ≤ b.date

instance : DecidableRel dayLE := fun a b =>
  inferInstanceAs (Decidable (a.date ≤ b.date))

instance : IsTotal ActiveDay dayLE := ⟨fun a b => Int.le_total a.date b.date⟩

instance : IsTrans ActiveDay dayLE :=
  ⟨fun _ _ _ h h' => Int.le_trans h h'⟩

/-- Strict date order on buckets (dates in a bucket list are unique, so the
sorted list is strictly increasing). -/
def dayLT (a b : ActiveDay) : Prop := a.date < b.date

instance : DecidableRel dayLT := fun a b =>
  inferInstanceAs (Decidable (a.date < b.date))

instance : IsAntisymm ActiveDay dayLT :=
  ⟨fun _ _ h h' => absurd h' (Int.lt_asymm h)⟩

/-- Embedding of `groupSessionsByDay` in `scoring.ts`: bucket sessions by civil date in the
target zone and return the buckets sorted ascending by date. -/
def groupSessionsByDay (db : TZDb) (sessions : List Session)
    (timezone : String) : Option (List ActiveDay) :=
  (groupAux db timezone sessions []).map (fun l => List.insertionSort dayLE l)

/-- Embedding of `calculateBaseScore` in `scoring.ts`: `(activeDays / 28) * 60`. -/
def calculateBaseScore (activeDays : List ActiveDay) : ℚ :=
  (activeDays.length : ℚ) / (WINDOW_DAYS : ℚ) * 60

/-- The day difference the code computes between two bucket dates:
`Math.floor((new Date(curr).getTime() - new Date(prev).getTime()) / 86400000)`;
parsing a `"YYYY-MM-DD"` string yields the UTC midnight `day * 86400000`. -/
def bucketDiffDays (prev curr : ActiveDay) : Int :=
  Int.fdiv (curr.date * msPerDay - prev.date * msPerDay) msPerDay

/-- The consecutive-pair list a `for (let i = 1; ...)` loop walks. -/
def consecutivePairs (l : List ActiveDay) : List (ActiveDay × ActiveDay) :=
  l.zip l.tail

/-- Embedding of `calculateDistributionBonus` in `scoring.ts`. -/
def calculateDistributionBonus (activeDays : List ActiveDay) : ℚ :=
  if activeDays.length < 2 then 0
  else
    let gaps := (consecutivePairs activeDays).map
      (fun p => bucketDiffDays p.1 p.2)
    let maxGap : Int :=
      match gaps with
      | [] => 0
      | g :: t => t.foldl max g
    let distributionQuality : ℚ := 1 - min ((maxGap : ℚ) / (WINDOW_DAYS : ℚ)) 1
    distributionQuality * 25

/-- The backward-walk loop inside `calculateStreakBonus`, with the remaining
iteration count as fuel.  `checkDate` is the instant held by the mutable
`Date`; each pass formats it in the target zone, then
`checkDate.setDate(checkDate.getDate() - 1)` moves it back one UTC day
(host timezone is UTC). -/
def streakLoop (db : TZDb) (timezone : String) (activeDaySet : List Int) :
    Nat → Int → Nat → Option Nat
  | 0, _, streak => some streak
  | n + 1, checkDate, streak =>
    match toLocalDateString db (some checkDate) timezone with
    | none => none
    | some dateStr =>
      if activeDaySet.contains dateStr then
        streakLoop db timezone activeDaySet n (checkDate - msPerDay)
          (streak + 1)
      else if streak > 0 then some streak
      else streakLoop db timezone activeDaySet n (checkDate - msPerDay) streak

/-- Embedding of `calculateStreakBonus` in `scoring.ts`.  The walk starts at
`new Date(toLocalDateString(referenceDate, timezone))`, i.e. the UTC-midnight
instant of the reference civil date, which is then re-formatted in the target
zone on the first iteration. -/
def calculateStreakBonus (db : TZDb) (activeDays : List ActiveDay)
    (referenceDate : Int) (timezone : String) : Option ℚ :=
  if activeDays.isEmpty then some 0
  else
    match toLocalDateString db (some referenceDate) timezone with
    | none => none
    | some refDay =>
      match streakLoop db timezone (activeDays.map (fun d => d.date))
          WINDOW_DAYS (refDay * msPerDay) 0 with
      | none => none
      | some streak => some (min ((streak : ℚ) * 2) 10)

/-- Embedding of `calculateRecencyBonus` in `scoring.ts`. -/
def calculateRecencyBonus (metadata : ConsistencyMetadata) : ℚ :=
  if metadata.daysSinceLastSession ≤ 1 then 5
  else if metadata.daysSinceLastSession ≤ 3 then 3
  else if metadata.daysSinceLastSession ≤ 7 then 1
  else 0

/-- Embedding of `calculateScoreBreakdown` in `scoring.ts` (streak filled in later). -/
def calculateScoreBreakdown (activeDays : List ActiveDay)
    (metadata : ConsistencyMetadata) : ScoreBreakdown :=
  { baseScore := calculateBaseScore activeDays
    distributionBonus := calculateDistributionBonus activeDays
    streakBonus := 0
    recencyBonus := calculateRecencyBonus metadata }

/-- The longest-streak scan in `calculateMetadata`: fold over consecutive
pairs carrying `(longestStreak, currentStreak)`, both initialized to 1. -/
def longestStreakScan (l : List ActiveDay) : Nat :=
  ((consecutivePairs l).foldl
    (fun (p : Nat × Nat) pr =>
      if bucketDiffDays pr.1 pr.2 = 1 then
        (max p.1 (p.2 + 1), p.2 + 1)
      else (p.1, 1))
    (1, 1)).1

/-- Embedding of `calculateMetadata` in `scoring.ts`.  With no active days it returns the
sentinel record before any date formatting; otherwise it formats the
reference instant (which can throw) to compute `daysSinceLastSession`. -/
def calculateMetadata (db : TZDb) (activeDays : List ActiveDay)
    (referenceDate : Int) (timezone : String) : Option ConsistencyMetadata :=
  match activeDays with
  | [] => some ⟨0, 0, 0, 0, 0, (WINDOW_DAYS : Int)⟩
  | a :: rest =>
    match toLocalDateString db (some referenceDate) timezone with
    | none => none
    | some refDay =>
      let l := a :: rest
      let totalSessions := (l.map (fun d => d.sessionCount)).sum
      let gaps := (consecutivePairs l).map (fun p => bucketDiffDays p.1 p.2)
      let longestGap : Int :=
        match gaps with
        | [] => 0
        | g :: t => t.foldl max g
      let averageGap : ℚ :=
        if gaps.isEmpty then 0
        else (gaps.map (fun g => (g : ℚ))).foldl (fun s g => s + g) 0 /
          (gaps.length : ℚ)
      let lastDate := (l.getLast (List.cons_ne_nil a rest)).date
      let daysSinceLastSession :=
        Int.fdiv (refDay * msPerDay - lastDate * msPerDay) msPerDay
      some
        { totalSessions := totalSessions
          activeDays := l.length
          longestStreak := longestStreakScan l
          longestGap := longestGap
          averageGap := averageGap
          daysSinceLastSession := daysSinceLastSession }

/-- An `Option`-valued traversal: the chart loop body can throw, aborting the
whole list construction. -/
def traverseOpt (f : α → Option β) : List α → Option (List β)
  | [] => some []
  | a :: l =>
    match f a with
    | none => none
    | some b => (traverseOpt f l).map (fun t => b :: t)

/-- One chart slot of `generateChartData`: `i` days before the reference
instant (host-UTC day arithmetic), formatted in the target zone, then looked
up among the buckets. -/
def chartEntry (db : TZDb) (activeDays : List ActiveDay) (referenceDate : Int)
    (timezone : String) (i : Nat) : Option DayActivity :=
  match toLocalDateString db (some (referenceDate - (i : Int) * msPerDay))
      timezone with
  | none => none
  | some dateStr =>
    let day := activeDays.find? (fun d => d.date = dateStr)
    some
      { date := dateStr
        hasActivity := day.isSome
        sessionCount := (day.map (fun d => d.sessionCount)).getD 0 }

/-- Embedding of `generateChartData` in `scoring.ts`: `i` runs from 27 down to 0. -/
def generateChartData (db : TZDb) (activeDays : List ActiveDay)
    (referenceDate : Int) (timezone : String) : Option (List DayActivity) :=
  traverseOpt
    (fun j => chartEntry db activeDays referenceDate timezone
      (WINDOW_DAYS - 1 - j))
    (List.range WINDOW_DAYS)

/-- Embedding of `generateExplanations` in `scoring.ts`. -/
def generateExplanations (metadata : ConsistencyMetadata)
    (breakdown : ScoreBreakdown) : List String :=
  let n := metadata.activeDays
  let pct := round ((n : ℚ) / (WINDOW_DAYS : ℚ) * 100)
  let bullets := [s!"You trained {n} out of 28 days ({pct}%)"]
  let bullets := bullets ++
    (if metadata.activeDays ≥ 2 then
      let distPct := round (breakdown.distributionBonus / 25 * 100)
      if distPct ≥ 75 then ["Your sessions are evenly distributed"]
      else if distPct ≥ 50 then ["Your sessions are fairly well spaced"]
      else ["Long gaps reduce your consistency score"]
    else [])
  let ls := metadata.longestStreak
  let bullets := bullets ++
    (if ls > 1 then [s!"Longest streak: {ls} days"] else [])
  let dsl := metadata.daysSinceLastSession
  let bullets := bullets ++
    (if dsl ≤ 3 then
      [if dsl = 0 then "You exercised today—great momentum!"
       else s!"Last session was {dsl} days ago"]
    else [])
  let lg := metadata.longestGap
  let bullets := bullets ++
    (if lg > 7 ∧ bullets.length < 5 then [s!"Longest gap: {lg} days"]
     else [])
  bullets.take 5

/-- Embedding of `calculateConsistencyScore` in `scoring.ts`, the entry point, with the
same evaluation order (bucketing, metadata, breakdown, streak, chart,
explanations, clamped total).  `none` models an exception escaping the
call. -/
def calculateConsistencyScore (db : TZDb) (input : ScoreInput) :
    Option ConsistencyScore :=
  match groupSessionsByDay db input.sessions input.timezone with
  | none => none
  | some activeDays =>
    match calculateMetadata db activeDays input.referenceDate
        input.timezone with
    | none => none
    | some metadata =>
      let breakdown0 := calculateScoreBreakdown activeDays metadata
      match calculateStreakBonus db activeDays input.referenceDate
          input.timezone with
      | none => none
      | some streakBonus =>
        let breakdown := { breakdown0 with streakBonus := streakBonus }
        match generateChartData db activeDays input.referenceDate
            input.timezone with
        | none => none
        | some chartData =>
          let explanations := generateExplanations metadata breakdown
          let rawScore := breakdown.baseScore + breakdown.distributionBonus +
            breakdown.streakBonus + breakdown.recencyBonus
          let score : Int := max 0 (min 100 (round rawScore))
          some
            { score := score
              explanations := explanations
              chartData := chartData
              metadata := metadata
              breakdown := breakdown }

/-- The civil date of instant `t` in zone `tz` (what formatting computes for a
valid zone and instant). -/
def localDay (tz : Timezone) (t : Int) : Int :=
  Int.fdiv (t + tz.offset t) msPerDay

/-! ## A concrete slice of the runtime's IANA timezone database

Only the zones used by concrete witnesses and counterexamples are included;
the general theorems are stated over an arbitrary database. -/

/-- The UTC zone: offset 0 at every instant. -/
def utcZone : Timezone := ⟨fun _ => 0⟩

/-- The IANA fixed-offset zone `Etc/GMT+5` (5 hours behind UTC, no DST). -/
def etcGMTPlus5 : Timezone := ⟨fun _ => -18000000⟩

/-- The instant 2024-03-10T07:00:00Z in ms: the spring-forward instant of
`America/New_York` in 2024 (EST, UTC-5, before; EDT, UTC-4, after). -/
def nySpring2024 : Int := 1710054000000

/-- The zone `America/New_York`, faithful to the real zone between the 2023-11-05 and
2024-11-03 transitions: UTC-5 before the 2024-03-10 spring-forward instant,
UTC-4 from it on.  All concrete instants used below lie in that range. -/
def americaNewYork : Timezone :=
  ⟨fun t => if t < nySpring2024 then -18000000 else -14400000⟩

/-- The modelled runtime zone lookup. -/
def jsEnv : TZDb := fun id =>
  if id = "UTC" then some utcZone
  else if id = "Etc/GMT+5" then some etcGMTPlus5
  else if id = "America/New_York" then some americaNewYork
  else none

/-! ## Basic arithmetic and formatting lemmas -/

theorem msPerDay_pos : (0 : Int) < msPerDay := by decide

theorem fdiv_mul_self (m : Int) : Int.fdiv (m * msPerDay) msPerDay = m := by
  rw [Int.fdiv_eq_ediv _ (by decide)]
  exact Int.mul_ediv_cancel m (by decide)

theorem fdiv_mul_add_self (m o : Int) (h0 : 0 ≤ o) (h1 : o < msPerDay) :
    Int.fdiv (m * msPerDay + o) msPerDay = m := by
  rw [Int.fdiv_eq_ediv _ (by decide), Int.add_comm,
    Int.add_mul_ediv_right o m (by decide : (msPerDay : Int) ≠ 0),
    Int.ediv_eq_zero_of_lt h0 h1, Int.zero_add]

theorem bucketDiffDays_eq (a b : ActiveDay) :
    bucketDiffDays a b = b.date - a.date := by
  unfold bucketDiffDays
  rw [← Int.sub_mul, fdiv_mul_self]

theorem toLocalDateString_valid {db : TZDb} {tzid : String} {tz : Timezone}
    (h : db tzid = some tz) (t : Int) :
    toLocalDateString db (some t) tzid = some (localDay tz t) := by
  simp [toLocalDateString, h, localDay]

theorem toLocalDateString_invalid_tz {db : TZDb} {tzid : String}
    (h : db tzid = none) (d : Option Int) :
    toLocalDateString db d tzid = none := by
  simp [toLocalDateString, h]

theorem toLocalDateString_invalid_date {db : TZDb} (tzid : String) :
    toLocalDateString db none tzid = none := by
  unfold toLocalDateString
  cases db tzid <;> rfl

/-! ## Structure of the bucket list -/

/-- The date keys of a bucket list. -/
def dates (l : List ActiveDay) : List Int := l.map (fun a => a.date)

theorem addSession_any_iff (acc : List ActiveDay) (d : Int) :
    (acc.any (fun a => a.date = d) = true) ↔ d ∈ dates acc := by
  simp [dates, List.any_eq_true, List.mem_map]

theorem addSession_dates_of_mem {acc : List ActiveDay} {d : Int} (dur : ℚ)
    (h : d ∈ dates acc) : dates (addSession acc d dur) = dates acc := by
  unfold addSession
  rw [if_pos ((addSession_any_iff acc d).mpr h)]
  unfold dates
  rw [List.map_map]
  apply List.map_congr_left
  intro a _
  by_cases hd : a.date = d <;> simp [hd]

theorem addSession_dates_of_not_mem {acc : List ActiveDay} {d : Int} (dur : ℚ)
    (h : d ∉ dates acc) : dates (addSession acc d dur) = dates acc ++ [d] := by
  unfold addSession
  rw [if_neg (fun hc => h ((addSession_any_iff acc d).mp hc))]
  simp [dates]

theorem addSession_nodup {acc : List ActiveDay} {d : Int} (dur : ℚ)
    (h : (dates acc).Nodup) : (dates (addSession acc d dur)).Nodup := by
  by_cases hm : d ∈ dates acc
  · rw [addSession_dates_of_mem dur hm]; exact h
  · rw [addSession_dates_of_not_mem dur hm]
    simpa [List.nodup_append] using ⟨h, hm⟩

theorem groupAux_nodup (db : TZDb) (tzid : String) :
    ∀ (s : List Session) (acc l : List ActiveDay),
      groupAux db tzid s acc = some l → (dates acc).Nodup →
      (dates l).Nodup := by
  intro s
  induction s with
  | nil =>
    intro acc l h hn
    simp only [groupAux] at h
    cases h
    exact hn
  | cons sess rest ih =>
    intro acc l h hn
    simp only [groupAux] at h
    cases hfmt : toLocalDateString db sess.timestamp tzid with
    | none => rw [hfmt] at h; cases h
    | some d =>
      rw [hfmt] at h
      exact ih _ _ h (addSession_nodup _ hn)

theorem groupSessionsByDay_eq_some {db : TZDb} {sessions : List Session}
    {tzid : String} {l : List ActiveDay}
    (h : groupSessionsByDay db sessions tzid = some l) :
    ∃ m, groupAux db tzid sessions [] = some m ∧
      l = List.insertionSort dayLE m := by
  unfold groupSessionsByDay at h
  cases hm : groupAux db tzid sessions [] with
  | none => rw [hm] at h; cases h
  | some m =>
    rw [hm] at h
    exact ⟨m, rfl, (Option.some_inj.mp h).symm⟩

theorem groupSessionsByDay_sorted {db : TZDb} {sessions : List Session}
    {tzid : String} {l : List ActiveDay}
    (h : groupSessionsByDay db sessions tzid = some l) :
    List.Sorted dayLE l := by
  obtain ⟨m, _, rfl⟩ := groupSessionsByDay_eq_some h
  exact List.sorted_insertionSort dayLE m

theorem groupSessionsByDay_nodup {db : TZDb} {sessions : List Session}
    {tzid : String} {l : List ActiveDay}
    (h : groupSessionsByDay db sessions tzid = some l) :
    (dates l).Nodup := by
  obtain ⟨m, hm, rfl⟩ := groupSessionsByDay_eq_some h
  have hnd : (dates m).Nodup := groupAux_nodup db tzid sessions [] m hm (by simp [dates])
  have hperm : List.Perm (dates (List.insertionSort dayLE m)) (dates m) := by
    unfold dates
    exact (List.perm_insertionSort dayLE m).map _
  exact hperm.nodup_iff.mpr hnd

theorem groupSessionsByDay_pairwise_lt {db : TZDb} {sessions : List Session}
    {tzid : String} {l : List ActiveDay}
    (h : groupSessionsByDay db sessions tzid = some l) :
    List.Pairwise dayLT l := by
  have hs : List.Pairwise dayLE l := groupSessionsByDay_sorted h
  have hn : List.Pairwise (fun a b : ActiveDay => a.date ≠ b.date) l := by
    have hnd := groupSessionsByDay_nodup h
    unfold dates List.Nodup at hnd
    exact List.pairwise_map.mp hnd
  exact (hs.and hn).imp (fun hab => lt_of_le_of_ne hab.1 hab.2)

/-! ## Totality under a valid zone -/

theorem streakLoop_isSome {db : TZDb} {tzid : String} {tz : Timezone}
    (h : db tzid = some tz) (set : List Int) :
    ∀ (n : Nat) (cd : Int) (st : Nat),
      (streakLoop db tzid set n cd st).isSome := by
  intro n
  induction n with
  | zero => intro cd st; simp [streakLoop]
  | succ k ih =>
    intro cd st
    rw [streakLoop, toLocalDateString_valid h cd]
    by_cases hmem : set.contains (localDay tz cd)
    · simp only [hmem, if_true]; exact ih _ _
    · simp only [hmem, if_false]
      by_cases hst : st > 0
      · simp [hst]
      · simp only [hst, if_false]; exact ih _ _

theorem traverseOpt_eq_map {α β : Type} {f : α → Option β} {g : α → β} :
    ∀ {l : List α}, (∀ a ∈ l, f a = some (g a)) →
      traverseOpt f l = some (l.map g) := by
  intro l
  induction l with
  | nil => intro _; rfl
  | cons a t ih =>
    intro hall
    rw [traverseOpt, hall a (List.mem_cons_self a t),
      ih (fun b hb => hall b (List.mem_cons_of_mem a hb))]
    rfl

theorem traverseOpt_isSome {α β : Type} {f : α → Option β} {l : List α}
    (h : ∀ a ∈ l, (f a).isSome) : (traverseOpt f l).isSome := by
  induction l with
  | nil => simp [traverseOpt]
  | cons a t ih =>
    rw [traverseOpt]
    cases hfa : f a with
    | none =>
      have := h a (List.mem_cons_self a t)
      rw [hfa] at this
      simp at this
    | some b =>
      have hts := ih (fun x hx => h x (List.mem_cons_of_mem a hx))
      obtain ⟨bt, hbt⟩ := Option.isSome_iff_exists.mp hts
      rw [hbt]
      rfl

theorem chartEntry_isSome {db : TZDb} {tzid : String} {tz : Timezone}
    (h : db tzid = some tz) (l : List ActiveDay) (ref : Int) (i : Nat) :
    (chartEntry db l ref tzid i).isSome := by
  rw [chartEntry, toLocalDateString_valid h]
  rfl

theorem generateChartData_isSome {db : TZDb} {tzid : String} {tz : Timezone}
    (h : db tzid = some tz) (l : List ActiveDay) (ref : Int) :
    (generateChartData db l ref tzid).isSome := by
  exact traverseOpt_isSome (fun a _ => chartEntry_isSome h l ref _)

theorem calculateMetadata_isSome {db : TZDb} {tzid : String} {tz : Timezone}
    (h : db tzid = some tz) (l : List ActiveDay) (ref : Int) :
    (calculateMetadata db l ref tzid).isSome := by
  cases l with
  | nil => simp [calculateMetadata]
  | cons a rest => rw [calculateMetadata, toLocalDateString_valid h]; rfl

theorem calculateStreakBonus_isSome {db : TZDb} {tzid : String} {tz : Timezone}
    (h : db tzid = some tz) (l : List ActiveDay) (ref : Int) :
    (calculateStreakBonus db l ref tzid).isSome := by
  rw [calculateStreakBonus]
  by_cases he : l.isEmpty
  · simp [he]
  · rw [if_neg he, toLocalDateString_valid h]
    obtain ⟨k, hk⟩ := Option.isSome_iff_exists.mp
      (streakLoop_isSome h (l.map (fun d => d.date)) WINDOW_DAYS
        (localDay tz ref * msPerDay) 0)
    show (match streakLoop db tzid (l.map (fun d : ActiveDay => d.date))
        WINDOW_DAYS (localDay tz ref * msPerDay) 0 with
      | none => none
      | some streak => some (min ((streak : ℚ) * 2) 10)).isSome = true
    rw [hk]
    rfl

theorem groupAux_isSome (db : TZDb) (tzid : String) :
    ∀ (s : List Session) (acc : List ActiveDay),
      (∀ sess ∈ s, (toLocalDateString db sess.timestamp tzid).isSome) →
      (groupAux db tzid s acc).isSome := by
  intro s
  induction s with
  | nil => intro acc _; simp [groupAux]
  | cons sess rest ih =>
    intro acc hall
    rw [groupAux]
    cases hfmt : toLocalDateString db sess.timestamp tzid with
    | none =>
      have := hall sess (List.mem_cons_self sess rest)
      rw [hfmt] at this; simp at this
    | some d => exact ih _ (fun x hx => hall x (List.mem_cons_of_mem sess hx))

theorem groupSessionsByDay_isSome {db : TZDb} {tzid : String} {tz : Timezone}
    (h : db tzid = some tz) (sessions : List Session)
    (hts : ∀ sess ∈ sessions, (sess.timestamp).isSome) :
    (groupSessionsByDay db sessions tzid).isSome := by
  rw [groupSessionsByDay]
  obtain ⟨m, hm⟩ := Option.isSome_iff_exists.mp
    (groupAux_isSome db tzid sessions []
      (fun sess hs => by
        obtain ⟨t, ht⟩ := Option.isSome_iff_exists.mp (hts sess hs)
        rw [ht, toLocalDateString_valid h]
        rfl))
  rw [hm]
  rfl

theorem calculateConsistencyScore_isSome {db : TZDb} {tzid : String}
    {tz : Timezone} (h : db tzid = some tz) (sessions : List Session)
    (ref : Int)
    (hts : ∀ sess ∈ sessions, (sess.timestamp).isSome) :
    (calculateConsistencyScore db ⟨sessions, ref, tzid⟩).isSome := by
  obtain ⟨l, hl⟩ := Option.isSome_iff_exists.mp
    (groupSessionsByDay_isSome h sessions hts)
  obtain ⟨md, hmd⟩ := Option.isSome_iff_exists.mp
    (calculateMetadata_isSome h l ref)
  obtain ⟨sb, hsb⟩ := Option.isSome_iff_exists.mp
    (calculateStreakBonus_isSome h l ref)
  obtain ⟨cd, hcd⟩ := Option.isSome_iff_exists.mp
    (generateChartData_isSome h l ref)
  rw [calculateConsistencyScore]
  simp only [hl, hmd, hsb, hcd]
  rfl

/-! ## Characterizing a successful call -/

theorem calculateConsistencyScore_eq {db : TZDb} {input : ScoreInput}
    {l : List ActiveDay} {md : ConsistencyMetadata} {sb : ℚ}
    {cd : List DayActivity}
    (hl : groupSessionsByDay db input.sessions input.timezone = some l)
    (hmd : calculateMetadata db l input.referenceDate input.timezone = some md)
    (hsb : calculateStreakBonus db l input.referenceDate input.timezone =
      some sb)
    (hcd : generateChartData db l input.referenceDate input.timezone =
      some cd) :
    calculateConsistencyScore db input = some
      { score := max 0 (min 100 (round (calculateBaseScore l +
          calculateDistributionBonus l + sb + calculateRecencyBonus md)))
        explanations := generateExplanations md
          ⟨calculateBaseScore l, calculateDistributionBonus l, sb,
            calculateRecencyBonus md⟩
        chartData := cd
        metadata := md
        breakdown := ⟨calculateBaseScore l, calculateDistributionBonus l, sb,
          calculateRecencyBonus md⟩ } := by
  rw [calculateConsistencyScore]
  simp only [hl, hmd, hsb, hcd]
  rfl

theorem calculateConsistencyScore_inv {db : TZDb} {input : ScoreInput}
    {r : ConsistencyScore}
    (h : calculateConsistencyScore db input = some r) :
    ∃ l md sb cd,
      groupSessionsByDay db input.sessions input.timezone = some l ∧
      calculateMetadata db l input.referenceDate input.timezone = some md ∧
      calculateStreakBonus db l input.referenceDate input.timezone =
        some sb ∧
      generateChartData db l input.referenceDate input.timezone = some cd ∧
      r = { score := max 0 (min 100 (round (calculateBaseScore l +
              calculateDistributionBonus l + sb + calculateRecencyBonus md)))
            explanations := generateExplanations md
              ⟨calculateBaseScore l, calculateDistributionBonus l, sb,
                calculateRecencyBonus md⟩
            chartData := cd
            metadata := md
            breakdown := ⟨calculateBaseScore l, calculateDistributionBonus l,
              sb, calculateRecencyBonus md⟩ } := by
  rw [calculateConsistencyScore] at h
  cases hl : groupSessionsByDay db input.sessions input.timezone with
  | none => rw [hl] at h; cases h
  | some l =>
    rw [hl] at h
    simp only [] at h
    cases hmd : calculateMetadata db l input.referenceDate input.timezone with
    | none => rw [hmd] at h; cases h
    | some md =>
      rw [hmd] at h
      simp only [] at h
      cases hsb : calculateStreakBonus db l input.referenceDate
          input.timezone with
      | none => rw [hsb] at h; cases h
      | some sb =>
        rw [hsb] at h
        simp only [] at h
        cases hcd : generateChartData db l input.referenceDate
            input.timezone with
        | none => rw [hcd] at h; cases h
        | some cd =>
          rw [hcd] at h
          simp only [] at h
          exact ⟨l, md, sb, cd, rfl, hmd, hsb, hcd,
            (Option.some_inj.mp h).symm⟩

/-! ## Bounds on the score components -/

theorem le_foldl_max (g : Int) (t : List Int) : g ≤ t.foldl max g := by
  induction t generalizing g with
  | nil => exact le_refl g
  | cons x xs ih => exact le_trans (le_max_left g x) (ih (max g x))

theorem calculateBaseScore_nonneg (l : List ActiveDay) :
    0 ≤ calculateBaseScore l := by
  unfold calculateBaseScore
  positivity

theorem calculateBaseScore_le (l : List ActiveDay)
    (h : l.length ≤ WINDOW_DAYS) : calculateBaseScore l ≤ 60 := by
  unfold calculateBaseScore
  rw [div_mul_eq_mul_div, div_le_iff₀ (by norm_num [WINDOW_DAYS])]
  have hle : (l.length : ℚ) ≤ 28 := by
    have := h
    unfold WINDOW_DAYS at this
    exact_mod_cast this
  calc (l.length : ℚ) * 60 ≤ 28 * 60 := by nlinarith
    _ = 60 * (WINDOW_DAYS : ℚ) := by norm_num [WINDOW_DAYS]

theorem consecutivePairs_rel {R : ActiveDay → ActiveDay → Prop} :
    ∀ {l : List ActiveDay}, List.Pairwise R l →
      ∀ p ∈ consecutivePairs l, R p.1 p.2 := by
  intro l
  induction l with
  | nil => intro _ p hp; simp [consecutivePairs] at hp
  | cons a t ih =>
    intro hpw p hp
    cases t with
    | nil => simp [consecutivePairs] at hp
    | cons b t2 =>
      have hab : R a b := (List.pairwise_cons.mp hpw).1 b
        (List.mem_cons_self b t2)
      have hrest := (List.pairwise_cons.mp hpw).2
      have : consecutivePairs (a :: b :: t2) =
          (a, b) :: consecutivePairs (b :: t2) := rfl
      rw [this] at hp
      cases hp with
      | head => exact hab
      | tail _ hp2 => exact ih hrest p hp2

/-- The gap list between consecutive sorted buckets (proof-side helper). -/
def gapsOf (l : List ActiveDay) : List Int :=
  (consecutivePairs l).map (fun p => bucketDiffDays p.1 p.2)

/-- The maximum gap (proof-side helper matching the `Math.max(...gaps)` in the
code, with 0 for an empty gap list). -/
def maxGapOf (l : List ActiveDay) : Int :=
  match gapsOf l with
  | [] => 0
  | g :: t => t.foldl max g

theorem calculateDistributionBonus_of_ge (l : List ActiveDay)
    (h : ¬ l.length < 2) :
    calculateDistributionBonus l =
      (1 - min ((maxGapOf l : ℚ) / (WINDOW_DAYS : ℚ)) 1) * 25 := by
  unfold calculateDistributionBonus maxGapOf gapsOf
  rw [if_neg h]

theorem consecutivePairs_length (l : List ActiveDay) :
    (consecutivePairs l).length = l.length - 1 := by
  unfold consecutivePairs
  rw [List.length_zip, List.length_tail]
  omega

theorem gapsOf_pos (l : List ActiveDay) (hp : List.Pairwise dayLT l) :
    ∀ g ∈ gapsOf l, (1 : Int) ≤ g := by
  intro g hg
  rw [gapsOf, List.mem_map] at hg
  obtain ⟨p, hpmem, rfl⟩ := hg
  have hlt := consecutivePairs_rel hp p hpmem
  rw [bucketDiffDays_eq]
  unfold dayLT at hlt
  omega

theorem maxGapOf_pos (l : List ActiveDay) (hp : List.Pairwise dayLT l)
    (h : ¬ l.length < 2) : (1 : Int) ≤ maxGapOf l := by
  have hlen : (gapsOf l).length = l.length - 1 := by
    rw [gapsOf, List.length_map, consecutivePairs_length]
  cases hgv : gapsOf l with
  | nil => rw [hgv] at hlen; simp at hlen; omega
  | cons g t =>
    have hg1 : (1 : Int) ≤ g := by
      refine gapsOf_pos l hp g ?hm
      rw [hgv]
      exact List.mem_cons_self g t
    rw [maxGapOf, hgv]
    exact le_trans hg1 (le_foldl_max g t)

theorem calculateDistributionBonus_nonneg (l : List ActiveDay) :
    0 ≤ calculateDistributionBonus l := by
  by_cases h : l.length < 2
  · unfold calculateDistributionBonus
    rw [if_pos h]
  · rw [calculateDistributionBonus_of_ge l h]
    have hmin : min ((maxGapOf l : ℚ) / (WINDOW_DAYS : ℚ)) 1 ≤ 1 :=
      min_le_right _ _
    nlinarith [hmin]

theorem calculateDistributionBonus_le (l : List ActiveDay)
    (hp : List.Pairwise dayLT l) : calculateDistributionBonus l ≤ 25 := by
  by_cases h : l.length < 2
  · unfold calculateDistributionBonus
    rw [if_pos h]
    norm_num
  · rw [calculateDistributionBonus_of_ge l h]
    have h1 : (1 : Int) ≤ maxGapOf l := maxGapOf_pos l hp h
    have hq : (0 : ℚ) ≤ (maxGapOf l : ℚ) / (WINDOW_DAYS : ℚ) := by
      apply div_nonneg
      · exact_mod_cast le_trans (by omega) h1
      · norm_num [WINDOW_DAYS]
    have hmin : (0 : ℚ) ≤ min ((maxGapOf l : ℚ) / (WINDOW_DAYS : ℚ)) 1 :=
      le_min hq (by norm_num)
    nlinarith [hmin]

theorem calculateRecencyBonus_nonneg (md : ConsistencyMetadata) :
    0 ≤ calculateRecencyBonus md := by
  unfold calculateRecencyBonus
  split
  · norm_num
  · split
    · norm_num
    · split <;> norm_num

theorem calculateRecencyBonus_le (md : ConsistencyMetadata) :
    calculateRecencyBonus md ≤ 5 := by
  unfold calculateRecencyBonus
  split
  · norm_num
  · split
    · norm_num
    · split <;> norm_num

theorem streakBonus_bounds {db : TZDb} {l : List ActiveDay} {ref : Int}
    {tzid : String} {sb : ℚ}
    (h : calculateStreakBonus db l ref tzid = some sb) :
    0 ≤ sb ∧ sb ≤ 10 := by
  rw [calculateStreakBonus] at h
  by_cases he : l.isEmpty
  · rw [if_pos he] at h
    cases h
    norm_num
  · rw [if_neg he] at h
    cases hfmt : toLocalDateString db (some ref) tzid with
    | none => rw [hfmt] at h; cases h
    | some refDay =>
      rw [hfmt] at h
      simp only [] at h
      cases hsl : streakLoop db tzid (l.map (fun d => d.date)) WINDOW_DAYS
          (refDay * msPerDay) 0 with
      | none => rw [hsl] at h; cases h
      | some k =>
        rw [hsl] at h
        cases h
        constructor
        · exact le_min (by positivity) (by norm_num)
        · exact min_le_right _ _

/-! ## Concrete evaluations shared by witnesses -/

/-- The result of scoring an empty session list at instant 0 under UTC. -/
def emptyUTCResult : ConsistencyScore :=
  { score := 0
    explanations := ["You trained 0 out of 28 days (0%)"]
    chartData := (List.range 28).map (fun j => ⟨(j : Int) - 27, false, 0⟩)
    metadata := ⟨0, 0, 0, 0, 0, 28⟩
    breakdown := ⟨0, 0, 0, 0⟩ }

theorem emptyUTC_eval :
    calculateConsistencyScore jsEnv ⟨[], 0, "UTC"⟩ = some emptyUTCResult := by
  simp [calculateConsistencyScore, groupSessionsByDay, groupAux,
    calculateMetadata, calculateScoreBreakdown, calculateBaseScore,
    calculateDistributionBonus, calculateRecencyBonus, calculateStreakBonus,
    generateChartData, traverseOpt, chartEntry, generateExplanations,
    toLocalDateString, jsEnv, utcZone, WINDOW_DAYS, msPerDay,
    List.range_succ, emptyUTCResult]
  rfl

/-! ## Claims -/

/-- C5: for every input on which the call succeeds, the returned score is the
sum of the four breakdown components, rounded once (on the sum) and then
clamped to [0, 100]; consequently 0 ≤ score ≤ 100 (and the score is an
integer by type). -/
theorem score_is_clamped_rounded_sum {db : TZDb} {input : ScoreInput}
    {r : ConsistencyScore} (h : calculateConsistencyScore db input = some r) :
    r.score = max 0 (min 100 (round (r.breakdown.baseScore +
      r.breakdown.distributionBonus + r.breakdown.streakBonus +
      r.breakdown.recencyBonus))) ∧ 0 ≤ r.score ∧ r.score ≤ 100 := by
  obtain ⟨l, md, sb, cd, _, _, _, _, rfl⟩ := calculateConsistencyScore_inv h
  refine ⟨rfl, le_max_left _ _, ?hle⟩
  exact max_le (by norm_num) (le_trans (min_le_left _ _) (by norm_num))

/-- Witness for C5 at the concrete input (no sessions, instant 0, UTC). -/
theorem score_is_clamped_rounded_sum_witness :
    calculateConsistencyScore jsEnv ⟨[], 0, "UTC"⟩ = some emptyUTCResult ∧
    (emptyUTCResult.score = max 0 (min 100 (round
      (emptyUTCResult.breakdown.baseScore +
       emptyUTCResult.breakdown.distributionBonus +
       emptyUTCResult.breakdown.streakBonus +
       emptyUTCResult.breakdown.recencyBonus))) ∧
     0 ≤ emptyUTCResult.score ∧ emptyUTCResult.score ≤ 100) :=
  ⟨emptyUTC_eval, score_is_clamped_rounded_sum emptyUTC_eval⟩

/-- C3: an unrecognized timezone identifier makes the whole call fail, for
every session list and reference instant — there is no silent fallback to a
default zone.  (With a nonempty list the failure happens while bucketing the
first session; with an empty list, while generating the chart.) -/
theorem unrecognized_timezone_surfaces_error {db : TZDb} {tzid : String}
    (h : db tzid = none) (sessions : List Session) (ref : Int) :
    calculateConsistencyScore db ⟨sessions, ref, tzid⟩ = none := by
  cases sessions with
  | nil =>
    have h28 : List.range WINDOW_DAYS = 0 :: List.range' 1 27 := by decide
    have hcd : generateChartData db [] ref tzid = none := by
      rw [generateChartData, h28, traverseOpt, chartEntry,
        toLocalDateString_invalid_tz h]
    rw [calculateConsistencyScore]
    simp [groupSessionsByDay, groupAux, calculateMetadata,
      calculateStreakBonus, hcd]
  | cons s rest =>
    have hg : groupSessionsByDay db (s :: rest) tzid = none := by
      rw [groupSessionsByDay, groupAux, toLocalDateString_invalid_tz h]
      rfl
    rw [calculateConsistencyScore]
    simp only [hg]

/-- Witness for C3: the identifier `Not/A_Zone` is not a recognized IANA
timezone, and scoring one session under it throws. -/
theorem unrecognized_timezone_surfaces_error_witness :
    jsEnv "Not/A_Zone" = none ∧
    calculateConsistencyScore jsEnv
      ⟨[⟨"a", some 0, none⟩], 0, "Not/A_Zone"⟩ = none :=
  ⟨rfl, unrecognized_timezone_surfaces_error rfl [⟨"a", some 0, none⟩] 0⟩

/-- C10: a session whose timestamp is an invalid instant makes the whole call
fail during date formatting (the session is not skipped and the day is not
treated as inactive); removing the invalid session makes the same call
succeed. -/
theorem invalid_timestamp_fails_call :
    calculateConsistencyScore jsEnv
      ⟨[⟨"bad", none, some 30⟩, ⟨"good", some 0, some 30⟩], 0, "UTC"⟩ =
      none ∧
    (calculateConsistencyScore jsEnv
      ⟨[⟨"good", some 0, some 30⟩], 0, "UTC"⟩).isSome := by
  constructor
  · rw [calculateConsistencyScore]
    have hg : groupSessionsByDay jsEnv
        [⟨"bad", none, some 30⟩, ⟨"good", some 0, some 30⟩] "UTC" = none := by
      rw [groupSessionsByDay, groupAux, toLocalDateString_invalid_date]
      rfl
    simp only [hg]
  · exact calculateConsistencyScore_isSome (show jsEnv "UTC" = some utcZone
      from rfl) _ 0 (by intro sess hs; simp at hs; rw [hs]; rfl)

/-- C7: scoring an empty session list under any recognized timezone and any
reference instant yields the sentinel metadata
`{0, 0, 0, 0, 0, 28}`, score 0, 28 chart entries all inactive with session
count 0, and at least one explanation, among them the frequency bullet
`"You trained 0 out of 28 days (0%)"`. -/
theorem empty_sessions_result {db : TZDb} {tzid : String} {tz : Timezone}
    (h : db tzid = some tz) (ref : Int) :
    ∃ r, calculateConsistencyScore db ⟨[], ref, tzid⟩ = some r ∧
      r.metadata = ⟨0, 0, 0, 0, 0, 28⟩ ∧
      r.score = 0 ∧
      r.chartData.length = 28 ∧
      (∀ e ∈ r.chartData, e.hasActivity = false ∧ e.sessionCount = 0) ∧
      1 ≤ r.explanations.length ∧
      "You trained 0 out of 28 days (0%)" ∈ r.explanations := by
  have hl : groupSessionsByDay db [] tzid = some [] := rfl
  have hmd : calculateMetadata db [] ref tzid =
      some ⟨0, 0, 0, 0, 0, (WINDOW_DAYS : Int)⟩ := rfl
  have hsb : calculateStreakBonus db [] ref tzid = some 0 := rfl
  have hcd : generateChartData db [] ref tzid =
      some ((List.range WINDOW_DAYS).map (fun j =>
        ⟨localDay tz (ref - ((WINDOW_DAYS - 1 - j : Nat) : Int) * msPerDay),
          false, 0⟩)) := by
    apply traverseOpt_eq_map
    intro j _
    rw [chartEntry, toLocalDateString_valid h]
    rfl
  have hr := @calculateConsistencyScore_eq db ⟨[], ref, tzid⟩ _ _ _ _
    hl hmd hsb hcd
  have hexp : generateExplanations ⟨0, 0, 0, 0, 0, (WINDOW_DAYS : Int)⟩
      ⟨calculateBaseScore [], calculateDistributionBonus [], 0,
        calculateRecencyBonus ⟨0, 0, 0, 0, 0, (WINDOW_DAYS : Int)⟩⟩ =
      ["You trained 0 out of 28 days (0%)"] := by
    norm_num [generateExplanations, WINDOW_DAYS]
    rfl
  refine ⟨_, hr, rfl, ?score, ?len, ?inact, ?expl, ?freq⟩
  case score =>
    have hbase : calculateBaseScore [] = 0 := by
      simp [calculateBaseScore]
    have hdist : calculateDistributionBonus [] = 0 := by
      simp [calculateDistributionBonus]
    have hrec : calculateRecencyBonus ⟨0, 0, 0, 0, 0, (WINDOW_DAYS : Int)⟩ =
        0 := by
      norm_num [calculateRecencyBonus, WINDOW_DAYS]
    simp [hbase, hdist, hrec]
  case len => simp [WINDOW_DAYS]
  case inact =>
    intro e he
    simp only [List.mem_map] at he
    obtain ⟨j, _, rfl⟩ := he
    exact ⟨rfl, rfl⟩
  case expl => simp [hexp]
  case freq => simp [hexp]

/-- Witness for C7 at the concrete input (UTC, instant 0). -/
theorem empty_sessions_result_witness :
    jsEnv "UTC" = some utcZone ∧
    (∃ r, calculateConsistencyScore jsEnv ⟨[], 0, "UTC"⟩ = some r ∧
      r.metadata = ⟨0, 0, 0, 0, 0, 28⟩ ∧
      r.score = 0 ∧
      r.chartData.length = 28 ∧
      (∀ e ∈ r.chartData, e.hasActivity = false ∧ e.sessionCount = 0) ∧
      1 ≤ r.explanations.length ∧
      "You trained 0 out of 28 days (0%)" ∈ r.explanations) :=
  ⟨rfl, empty_sessions_result rfl 0⟩

/-- Sessions on 29 distinct UTC civil days (days 0 through 28).  The entry
point does not filter sessions to the 28-day window, so these all become
buckets. -/
def overflowSessions : List Session :=
  (List.range 29).map (fun k => ⟨"s", some ((k : Int) * msPerDay), none⟩)

/-- Projection used by counterexamples: the base score of a successful result
(0 for a failed call, so a value above 60 also proves the call succeeded). -/
def baseScoreOf (o : Option ConsistencyScore) : ℚ :=
  match o with
  | none => 0
  | some r => r.breakdown.baseScore

set_option maxHeartbeats 2000000 in
/-- Counterexample to C1 as stated: with 29 sessions on 29 distinct civil
days, the returned breakdown's `baseScore` is `29/28*60 > 60`, outside the
claimed [0, 60] bound. -/
theorem base_score_exceeds_bound_counterexample :
    60 < baseScoreOf (calculateConsistencyScore jsEnv
      ⟨overflowSessions, 28 * msPerDay, "UTC"⟩) := by
  simp +decide [dayLE, baseScoreOf, calculateConsistencyScore,
    groupSessionsByDay, groupAux, addSession, normalizeDuration,
    calculateMetadata, calculateScoreBreakdown, calculateBaseScore,
    calculateDistributionBonus, calculateRecencyBonus, calculateStreakBonus,
    streakLoop, generateChartData, traverseOpt, chartEntry,
    toLocalDateString, jsEnv, utcZone, WINDOW_DAYS, msPerDay,
    List.range_succ, overflowSessions, List.insertionSort,
    List.orderedInsert, longestStreakScan, consecutivePairs, bucketDiffDays]
  norm_num

/-- C1 (amended): on a successful call whose bucket list has at most 28
entries — as is always the case when the sessions lie within the 28-day
window — every breakdown component is within its stated bound; the
distribution, streak and recency bounds need no cardinality assumption. -/
theorem breakdown_components_bounded {db : TZDb} {input : ScoreInput}
    {r : ConsistencyScore} {l : List ActiveDay}
    (h : calculateConsistencyScore db input = some r)
    (hl : groupSessionsByDay db input.sessions input.timezone = some l)
    (hlen : l.length ≤ WINDOW_DAYS) :
    (0 ≤ r.breakdown.baseScore ∧ r.breakdown.baseScore ≤ 60) ∧
    (0 ≤ r.breakdown.distributionBonus ∧
      r.breakdown.distributionBonus ≤ 25) ∧
    (0 ≤ r.breakdown.streakBonus ∧ r.breakdown.streakBonus ≤ 10) ∧
    (0 ≤ r.breakdown.recencyBonus ∧ r.breakdown.recencyBonus ≤ 5) := by
  obtain ⟨l', md, sb, cd, hl', hmd, hsb, hcd, rfl⟩ :=
    calculateConsistencyScore_inv h
  rw [hl'] at hl
  have hleq : l' = l := Option.some_inj.mp hl
  subst hleq
  refine ⟨⟨calculateBaseScore_nonneg l', calculateBaseScore_le l' hlen⟩,
    ⟨calculateDistributionBonus_nonneg l',
      calculateDistributionBonus_le l' (groupSessionsByDay_pairwise_lt hl')⟩,
    streakBonus_bounds hsb,
    calculateRecencyBonus_nonneg md, calculateRecencyBonus_le md⟩

/-- Witness for the amended C1 at the concrete input (no sessions, UTC). -/
theorem breakdown_components_bounded_witness :
    calculateConsistencyScore jsEnv ⟨[], 0, "UTC"⟩ = some emptyUTCResult ∧
    groupSessionsByDay jsEnv [] "UTC" = some [] ∧
    ([] : List ActiveDay).length ≤ WINDOW_DAYS ∧
    ((0 ≤ emptyUTCResult.breakdown.baseScore ∧
       emptyUTCResult.breakdown.baseScore ≤ 60) ∧
     (0 ≤ emptyUTCResult.breakdown.distributionBonus ∧
       emptyUTCResult.breakdown.distributionBonus ≤ 25) ∧
     (0 ≤ emptyUTCResult.breakdown.streakBonus ∧
       emptyUTCResult.breakdown.streakBonus ≤ 10) ∧
     (0 ≤ emptyUTCResult.breakdown.recencyBonus ∧
       emptyUTCResult.breakdown.recencyBonus ≤ 5)) :=
  ⟨emptyUTC_eval, rfl, by decide,
    breakdown_components_bounded emptyUTC_eval rfl (by decide)⟩

/-! ## The streak walk as the specification words it (C2) -/

/-- The backward streak walk exactly as the specification describes it, over
civil dates: starting at the reference instant's own civil date, step back
one civil day at a time for up to `fuel` steps, incrementing the counter on
each active day, continuing past inactive days while the counter is 0, and
stopping at the first inactive day once the counter is positive. -/
def specStreakWalk (activeDates : List Int) : Nat → Int → Nat → Nat
  | 0, _, c => c
  | n + 1, d, c =>
    if activeDates.contains d then
      specStreakWalk activeDates n (d - 1) (c + 1)
    else if c > 0 then c
    else specStreakWalk activeDates n (d - 1) c

/-- The counter of the specification's 28-step walk from `startDay`. -/
def specStreakCounter (activeDates : List Int) (startDay : Int) : Nat :=
  specStreakWalk activeDates WINDOW_DAYS startDay 0

theorem streakLoop_eq_specWalk {db : TZDb} {tzid : String} {tz : Timezone}
    (hdb : db tzid = some tz)
    (hoff : ∀ t, 0 ≤ tz.offset t ∧ tz.offset t < msPerDay)
    (set : List Int) :
    ∀ (n : Nat) (k : Int) (c : Nat),
      streakLoop db tzid set n (k * msPerDay) c =
        some (specStreakWalk set n k c) := by
  intro n
  induction n with
  | zero => intro k c; rfl
  | succ m ih =>
    intro k c
    have hfmt : toLocalDateString db (some (k * msPerDay)) tzid = some k := by
      rw [toLocalDateString_valid hdb, localDay,
        fdiv_mul_add_self k (tz.offset (k * msPerDay))
          (hoff (k * msPerDay)).1 (hoff (k * msPerDay)).2]
    have hsub : k * msPerDay - msPerDay = (k - 1) * msPerDay := by ring
    rw [streakLoop, hfmt]
    simp only []
    by_cases hmem : set.contains k = true
    · rw [if_pos hmem, specStreakWalk, if_pos hmem, hsub]
      exact ih (k - 1) (c + 1)
    · rw [if_neg hmem, specStreakWalk, if_neg hmem]
      by_cases hc : c > 0
      · rw [if_pos hc, if_pos hc]
      · rw [if_neg hc, if_neg hc, hsub]
        exact ih (k - 1) c

/-- C2 (amended): for every successful call with at least one active day,
*under a zone whose UTC offset is always in [0, 24h)* — e.g. UTC itself —
the streak bonus equals `min(counter * 2, 10)` where `counter` is the
specification's backward walk from the reference instant's civil date.  For
zones behind UTC the code starts the walk one civil day earlier, because it
re-parses the formatted reference date as a UTC midnight instant and then
re-formats that instant in the target zone (see the counterexample). -/
theorem streak_bonus_matches_spec_walk {db : TZDb} {tzid : String}
    {tz : Timezone} {sessions : List Session} {ref : Int}
    {r : ConsistencyScore} {l : List ActiveDay}
    (hdb : db tzid = some tz)
    (hoff : ∀ t, 0 ≤ tz.offset t ∧ tz.offset t < msPerDay)
    (h : calculateConsistencyScore db ⟨sessions, ref, tzid⟩ = some r)
    (hl : groupSessionsByDay db sessions tzid = some l)
    (hne : l ≠ []) :
    r.breakdown.streakBonus =
      min ((specStreakCounter (l.map (fun d => d.date))
        (localDay tz ref) : ℚ) * 2) 10 := by
  obtain ⟨l', md, sb, cd, hl', hmd, hsb, hcd, rfl⟩ :=
    calculateConsistencyScore_inv h
  rw [hl'] at hl
  have hleq : l' = l := Option.some_inj.mp hl
  subst hleq
  rw [calculateStreakBonus,
    if_neg (by simpa [List.isEmpty_iff] using hne),
    toLocalDateString_valid hdb] at hsb
  simp only [] at hsb
  rw [streakLoop_eq_specWalk hdb hoff] at hsb
  simp only [] at hsb
  have := Option.some_inj.mp hsb
  simp only [← this, specStreakCounter]

/-- One session at noon UTC of epoch day 0, scored at that same instant. -/
def oneSessionUTC : ScoreInput :=
  ⟨[⟨"s1", some 43200000, some 60⟩], 43200000, "UTC"⟩

/-- The full result of scoring `oneSessionUTC`. -/
def oneSessionUTCResult : ConsistencyScore :=
  { score := 9
    explanations := ["You trained 1 out of 28 days (4%)",
      "You exercised today—great momentum!"]
    chartData := (List.range 28).map (fun j =>
      ⟨(j : Int) - 27, j == 27, if j == 27 then 1 else 0⟩)
    metadata := ⟨1, 1, 1, 0, 0, 0⟩
    breakdown := ⟨15/7, 0, 2, 5⟩ }

set_option maxHeartbeats 1000000 in
theorem oneSessionUTC_eval :
    calculateConsistencyScore jsEnv oneSessionUTC =
      some oneSessionUTCResult := by
  simp +decide [dayLE, calculateConsistencyScore, groupSessionsByDay,
    groupAux, addSession, normalizeDuration, calculateMetadata,
    calculateScoreBreakdown, calculateBaseScore, calculateDistributionBonus,
    calculateRecencyBonus, calculateStreakBonus, streakLoop,
    generateChartData, traverseOpt, chartEntry, generateExplanations,
    toLocalDateString, jsEnv, utcZone, WINDOW_DAYS, msPerDay,
    List.range_succ, oneSessionUTC, oneSessionUTCResult,
    List.insertionSort, List.orderedInsert, longestStreakScan,
    consecutivePairs, bucketDiffDays, round_eq]
  norm_num
  rfl

theorem oneSessionUTC_group_eval :
    groupSessionsByDay jsEnv oneSessionUTC.sessions "UTC" =
      some [⟨0, 1, 60⟩] := by
  simp +decide [dayLE, groupSessionsByDay, groupAux, addSession,
    normalizeDuration, toLocalDateString, jsEnv, utcZone, msPerDay,
    oneSessionUTC, List.insertionSort, List.orderedInsert]

/-- Witness for the amended C2: one session today under UTC gives a streak
counter of 1 and a streak bonus of 2. -/
theorem streak_bonus_matches_spec_walk_witness :
    jsEnv "UTC" = some utcZone ∧
    (∀ t, 0 ≤ utcZone.offset t ∧ utcZone.offset t < msPerDay) ∧
    calculateConsistencyScore jsEnv oneSessionUTC =
      some oneSessionUTCResult ∧
    groupSessionsByDay jsEnv oneSessionUTC.sessions "UTC" =
      some [⟨0, 1, 60⟩] ∧
    ([⟨0, 1, 60⟩] : List ActiveDay) ≠ [] ∧
    oneSessionUTCResult.breakdown.streakBonus =
      min ((specStreakCounter (([⟨0, 1, 60⟩] : List ActiveDay).map
        (fun d => d.date)) (localDay utcZone 43200000) : ℚ) * 2) 10 :=
  ⟨rfl, fun _ => ⟨le_refl 0, msPerDay_pos⟩, oneSessionUTC_eval,
    oneSessionUTC_group_eval,
    List.cons_ne_nil _ _,
    streak_bonus_matches_spec_walk rfl
      (fun _ => ⟨le_refl 0, msPerDay_pos⟩)
      oneSessionUTC_eval oneSessionUTC_group_eval
      (List.cons_ne_nil _ _)⟩

/-- Projection used by counterexamples: the streak bonus of a result. -/
def streakBonusOf (o : Option ConsistencyScore) : ℚ :=
  match o with
  | none => 0
  | some r => r.breakdown.streakBonus

/-- One session at 12:00 UTC of epoch day 20000, scored at that instant under
`Etc/GMT+5` (a real IANA zone 5 hours behind UTC).  Its civil date there is
epoch day 20000 (local 07:00). -/
def behindUTCInput : ScoreInput :=
  ⟨[⟨"s", some 1728043200000, none⟩], 1728043200000, "Etc/GMT+5"⟩

set_option maxHeartbeats 1000000 in
/-- Counterexample to C2 as stated: under a zone behind UTC, a session on the
reference instant's own civil date (epoch day 20000) gives a specification
walk counter of 1 — the claimed bonus is `min(1*2, 10) = 2` — but the call
returns a streak bonus of 0, because the code re-parses the formatted
reference date as UTC midnight and re-formats it, so its walk examines days
19999 down to 19972 and never the reference civil date itself. -/
theorem streak_bonus_counterexample :
    groupSessionsByDay jsEnv behindUTCInput.sessions "Etc/GMT+5" =
      some [⟨20000, 1, 0⟩] ∧
    localDay etcGMTPlus5 behindUTCInput.referenceDate = 20000 ∧
    specStreakCounter [20000] 20000 = 1 ∧
    (calculateConsistencyScore jsEnv behindUTCInput).isSome ∧
    streakBonusOf (calculateConsistencyScore jsEnv behindUTCInput) = 0 := by
  refine ⟨?grp, by decide, by decide, ?tot, ?sbz⟩
  case grp =>
    simp +decide [dayLE, groupSessionsByDay, groupAux, addSession,
      normalizeDuration, toLocalDateString, jsEnv, etcGMTPlus5, msPerDay,
      behindUTCInput, List.insertionSort, List.orderedInsert]
  case tot =>
    exact calculateConsistencyScore_isSome
      (show jsEnv "Etc/GMT+5" = some etcGMTPlus5 from rfl) _ _
      (by intro sess hs; simp [behindUTCInput] at hs; rw [hs]; rfl)
  case sbz =>
    simp +decide [dayLE, streakBonusOf, calculateConsistencyScore,
      groupSessionsByDay, groupAux, addSession, normalizeDuration,
      calculateMetadata, calculateScoreBreakdown, calculateBaseScore,
      calculateDistributionBonus, calculateRecencyBonus,
      calculateStreakBonus, streakLoop, generateChartData, traverseOpt,
      chartEntry, toLocalDateString, jsEnv, etcGMTPlus5, msPerDay,
      WINDOW_DAYS, List.range_succ, behindUTCInput, List.insertionSort,
      List.orderedInsert, longestStreakScan, consecutivePairs,
      bucketDiffDays]

/-! ## The chart series as the claim words it (C6) -/

/-- One chart slot as the specification describes it: `hasActivity` is the
presence of a matching bucket, `sessionCount` that bucket's count or 0. -/
def chartSpecEntry (l : List ActiveDay) (d : Int) : DayActivity :=
  match l.find? (fun a => a.date = d) with
  | some a => ⟨d, true, a.sessionCount⟩
  | none => ⟨d, false, 0⟩

/-- The chart series as the specification describes it: exactly 28 entries,
one per civil date from `refDay - 27` through `refDay`, oldest first. -/
def chartSpec (l : List ActiveDay) (refDay : Int) : List DayActivity :=
  (List.range WINDOW_DAYS).map
    (fun j : Nat => chartSpecEntry l (refDay - 27 + (j : Int)))

theorem fdiv_add_mul (a b : Int) :
    Int.fdiv (a + b * msPerDay) msPerDay = Int.fdiv a msPerDay + b := by
  rw [Int.fdiv_eq_ediv _ (by decide), Int.fdiv_eq_ediv _ (by decide)]
  exact Int.add_mul_ediv_right a b (by decide)

theorem localDay_const_sub {tz : Timezone} {c : Int}
    (hconst : ∀ t, tz.offset t = c) (t i : Int) :
    localDay tz (t - i * msPerDay) = localDay tz t - i := by
  unfold localDay
  rw [hconst, hconst]
  have : t - i * msPerDay + c = (t + c) + (-i) * msPerDay := by ring
  rw [this, fdiv_add_mul]
  ring

/-- C6 (amended): on a successful call under a *fixed-offset* zone (offset
independent of the instant, e.g. UTC or any `Etc/GMT±N`), the returned
`chartData` is exactly the specification's series: 28 entries, one per civil
date from the reference civil date − 27 through the reference civil date,
oldest first, with `hasActivity`/`sessionCount` taken from the matching
bucket.  Under a zone whose offset changes inside the window (a DST
transition) the 28 formatted dates can skip or duplicate civil dates (see
the counterexample). -/
theorem chart_data_matches_spec {db : TZDb} {tzid : String} {tz : Timezone}
    {c : Int} {sessions : List Session} {ref : Int} {r : ConsistencyScore}
    {l : List ActiveDay}
    (hdb : db tzid = some tz)
    (hconst : ∀ t, tz.offset t = c)
    (h : calculateConsistencyScore db ⟨sessions, ref, tzid⟩ = some r)
    (hl : groupSessionsByDay db sessions tzid = some l) :
    r.chartData = chartSpec l (localDay tz ref) := by
  obtain ⟨l', md, sb, cd, hl', hmd, hsb, hcd, rfl⟩ :=
    calculateConsistencyScore_inv h
  rw [hl'] at hl
  have hleq : l' = l := Option.some_inj.mp hl
  subst hleq
  have hspec : generateChartData db l' ref tzid =
      some ((List.range WINDOW_DAYS).map (fun j : Nat =>
        chartSpecEntry l' (localDay tz ref - 27 + (j : Int)))) := by
    apply traverseOpt_eq_map
    intro j hj
    have hj28 : j < 28 := by simpa [WINDOW_DAYS] using List.mem_range.mp hj
    have hdate : localDay tz (ref - ((WINDOW_DAYS - 1 - j : Nat) : Int) *
        msPerDay) = localDay tz ref - 27 + j := by
      rw [localDay_const_sub hconst]
      have : ((WINDOW_DAYS - 1 - j : Nat) : Int) = 27 - (j : Int) := by
        unfold WINDOW_DAYS
        omega
      rw [this]
      ring
    rw [chartEntry, toLocalDateString_valid hdb, hdate]
    unfold chartSpecEntry
    cases hf : l'.find? (fun a => a.date = localDay tz ref - 27 + j) with
    | none => simp [hf]
    | some a => simp [hf]
  rw [hspec] at hcd
  exact (Option.some_inj.mp hcd).symm

/-- Witness for the amended C6 at the one-session UTC input. -/
theorem chart_data_matches_spec_witness :
    jsEnv "UTC" = some utcZone ∧
    (∀ t, utcZone.offset t = 0) ∧
    calculateConsistencyScore jsEnv oneSessionUTC =
      some oneSessionUTCResult ∧
    groupSessionsByDay jsEnv oneSessionUTC.sessions "UTC" =
      some [⟨0, 1, 60⟩] ∧
    oneSessionUTCResult.chartData =
      chartSpec [⟨0, 1, 60⟩] (localDay utcZone 43200000) :=
  ⟨rfl, fun _ => rfl, oneSessionUTC_eval, oneSessionUTC_group_eval,
    chart_data_matches_spec rfl (fun _ => rfl) oneSessionUTC_eval
      oneSessionUTC_group_eval⟩

/-- Projection used by counterexamples: the chart dates of a result. -/
def chartDatesOf (o : Option ConsistencyScore) : List Int :=
  match o with
  | none => []
  | some r => r.chartData.map (fun e => e.date)

/-- Scoring at 2024-04-06T04:30Z (local 00:30 EDT) under `America/New_York`;
the window spans the 2024-03-10 spring-forward transition. -/
def dstChartInput : ScoreInput := ⟨[], 1712377800000, "America/New_York"⟩

set_option maxHeartbeats 1000000 in
/-- Counterexample to C6 as stated: under `America/New_York`, with the
reference instant at 00:30 local on 2024-04-06 (civil day 19819), the chart
is missing the civil date `19819 - 27 = 19792` (2024-03-10, the DST day) and
instead contains 19791, which is outside the claimed 28-day date range. -/
theorem chart_dates_counterexample :
    localDay americaNewYork 1712377800000 = 19819 ∧
    (calculateConsistencyScore jsEnv dstChartInput).isSome ∧
    19792 ∉ chartDatesOf (calculateConsistencyScore jsEnv dstChartInput) ∧
    19791 ∈ chartDatesOf (calculateConsistencyScore jsEnv dstChartInput) := by
  refine ⟨by decide, ?tot, ?miss, ?hit⟩
  case tot =>
    exact calculateConsistencyScore_isSome
      (show jsEnv "America/New_York" = some americaNewYork from rfl) _ _
      (by intro sess hs; simp [dstChartInput] at hs)
  case miss =>
    simp +decide [dayLE, chartDatesOf, calculateConsistencyScore,
      groupSessionsByDay, groupAux, calculateMetadata,
      calculateScoreBreakdown, calculateBaseScore,
      calculateDistributionBonus, calculateRecencyBonus,
      calculateStreakBonus, generateChartData, traverseOpt, chartEntry,
      toLocalDateString, jsEnv, americaNewYork, nySpring2024, msPerDay,
      WINDOW_DAYS, List.range_succ, dstChartInput]
  case hit =>
    simp +decide [dayLE, chartDatesOf, calculateConsistencyScore,
      groupSessionsByDay, groupAux, calculateMetadata,
      calculateScoreBreakdown, calculateBaseScore,
      calculateDistributionBonus, calculateRecencyBonus,
      calculateStreakBonus, generateChartData, traverseOpt, chartEntry,
      toLocalDateString, jsEnv, americaNewYork, nySpring2024, msPerDay,
      WINDOW_DAYS, List.range_succ, dstChartInput]

/-! ## Same-civil-day collapse (C8) -/

theorem groupAux_single_date {db : TZDb} {tzid : String} {d : Int} :
    ∀ (s : List Session),
      (∀ sess ∈ s, toLocalDateString db sess.timestamp tzid = some d) →
      ∀ (k : Nat) (q : ℚ), ∃ q2 : ℚ,
        groupAux db tzid s [⟨d, k, q⟩] = some [⟨d, k + s.length, q2⟩] := by
  intro s
  induction s with
  | nil => intro _ k q; exact ⟨q, rfl⟩
  | cons sess rest ih =>
    intro hall k q
    rw [groupAux, hall sess (List.mem_cons_self sess rest)]
    simp only []
    have hadd : addSession [⟨d, k, q⟩] d
        (normalizeDuration sess.durationSec) =
        [⟨d, k + 1, q + normalizeDuration sess.durationSec⟩] := by
      unfold addSession
      rw [if_pos (by simp)]
      simp
    rw [hadd]
    obtain ⟨q2, hq2⟩ := ih
      (fun x hx => hall x (List.mem_cons_of_mem sess hx)) (k + 1)
      (q + normalizeDuration sess.durationSec)
    refine ⟨q2, ?_⟩
    rw [hq2]
    have : k + 1 + rest.length = k + (rest.length + 1) := by omega
    rw [this]
    rfl

/-- C8: any `N ≥ 1` sessions whose timestamps all map to the same civil date
`d` in the target zone (identical timestamps included) produce a single
bucket for `d` with count `N`, and the call reports
`metadata.activeDays = 1` and `metadata.totalSessions = N`. -/
theorem same_day_sessions_collapse {db : TZDb} {tzid : String}
    {sessions : List Session} {d : Int} (ref : Int)
    (hne : sessions ≠ [])
    (hall : ∀ sess ∈ sessions,
      toLocalDateString db sess.timestamp tzid = some d) :
    ∃ (q : ℚ) (r : ConsistencyScore),
      groupSessionsByDay db sessions tzid =
        some [⟨d, sessions.length, q⟩] ∧
      calculateConsistencyScore db ⟨sessions, ref, tzid⟩ = some r ∧
      r.metadata.activeDays = 1 ∧
      r.metadata.totalSessions = sessions.length := by
  cases sessions with
  | nil => exact absurd rfl hne
  | cons s0 rest =>
    obtain ⟨tz, hdb⟩ : ∃ tz, db tzid = some tz := by
      have h0 := hall s0 (List.mem_cons_self s0 rest)
      unfold toLocalDateString at h0
      cases hdbv : db tzid with
      | none => rw [hdbv] at h0; cases h0
      | some tz => exact ⟨tz, rfl⟩
    have hgrp : ∃ q : ℚ, groupSessionsByDay db (s0 :: rest) tzid =
        some [⟨d, (s0 :: rest).length, q⟩] := by
      have h0 := hall s0 (List.mem_cons_self s0 rest)
      obtain ⟨q2, hq2⟩ := groupAux_single_date rest
        (fun x hx => hall x (List.mem_cons_of_mem s0 hx)) 1
        (normalizeDuration s0.durationSec)
      refine ⟨q2, ?_⟩
      rw [groupSessionsByDay, groupAux, h0]
      simp only []
      have hadd : addSession [] d (normalizeDuration s0.durationSec) =
          [⟨d, 1, normalizeDuration s0.durationSec⟩] := by
        unfold addSession
        rw [if_neg (by simp)]
        rfl
      rw [hadd, hq2]
      simp [List.insertionSort, Nat.add_comm]
    obtain ⟨q, hq⟩ := hgrp
    have hmd : calculateMetadata db [⟨d, (s0 :: rest).length, q⟩] ref tzid =
        some ⟨(s0 :: rest).length, 1,
          longestStreakScan [⟨d, (s0 :: rest).length, q⟩], 0, 0,
          Int.fdiv (localDay tz ref * msPerDay - d * msPerDay) msPerDay⟩ := by
      rw [calculateMetadata, toLocalDateString_valid hdb]
      simp [consecutivePairs, List.getLast]
    obtain ⟨sb, hsb⟩ := Option.isSome_iff_exists.mp
      (calculateStreakBonus_isSome hdb [⟨d, (s0 :: rest).length, q⟩] ref)
    obtain ⟨cd, hcd⟩ := Option.isSome_iff_exists.mp
      (generateChartData_isSome hdb [⟨d, (s0 :: rest).length, q⟩] ref)
    have hr := @calculateConsistencyScore_eq db ⟨s0 :: rest, ref, tzid⟩
      _ _ _ _ hq hmd hsb hcd
    exact ⟨q, _, hq, hr, rfl, rfl⟩

/-- Witness for C8: two sessions with identical timestamps (scenario D)
collapse to one active day with `totalSessions = 2`. -/
theorem same_day_sessions_collapse_witness :
    ([⟨"a", some 43200000, some 60⟩, ⟨"b", some 43200000, none⟩] :
      List Session) ≠ [] ∧
    (∀ sess ∈ ([⟨"a", some 43200000, some 60⟩,
        ⟨"b", some 43200000, none⟩] : List Session),
      toLocalDateString jsEnv sess.timestamp "UTC" = some 0) ∧
    (∃ (q : ℚ) (r : ConsistencyScore),
      groupSessionsByDay jsEnv
          [⟨"a", some 43200000, some 60⟩, ⟨"b", some 43200000, none⟩]
          "UTC" =
        some [⟨0, ([⟨"a", some 43200000, some 60⟩,
          ⟨"b", some 43200000, none⟩] : List Session).length, q⟩] ∧
      calculateConsistencyScore jsEnv
          ⟨[⟨"a", some 43200000, some 60⟩, ⟨"b", some 43200000, none⟩],
            43200000, "UTC"⟩ = some r ∧
      r.metadata.activeDays = 1 ∧
      r.metadata.totalSessions = ([⟨"a", some 43200000, some 60⟩,
        ⟨"b", some 43200000, none⟩] : List Session).length) := by
  have hall : ∀ sess ∈ ([⟨"a", some 43200000, some 60⟩,
      ⟨"b", some 43200000, none⟩] : List Session),
      toLocalDateString jsEnv sess.timestamp "UTC" = some 0 := by
    intro sess hs
    cases hs with
    | head => rfl
    | tail _ h2 =>
      cases h2 with
      | head => rfl
      | tail _ h3 => cases h3
  exact ⟨List.cons_ne_nil _ _, hall,
    same_day_sessions_collapse 43200000 (List.cons_ne_nil _ _) hall⟩

/-! ## Duration independence (C9): relations and congruence lemmas -/

/-- Two sessions that agree on everything except `durationSec`. -/
def sessionNoDur (a b : Session) : Prop :=
  a.id = b.id ∧ a.timestamp = b.timestamp

/-- Two buckets that agree on everything except `totalDurationSec`. -/
def bucketNoDur (a b : ActiveDay) : Prop :=
  a.date = b.date ∧ a.sessionCount = b.sessionCount

/-- Pointwise lifting of a relation to `Option`. -/
def optionRel (R : α → α → Prop) : Option α → Option α → Prop
  | none, none => True
  | some a, some b => R a b
  | _, _ => False

theorem bnd_dates : ∀ {l1 l2 : List ActiveDay},
    List.Forall₂ bucketNoDur l1 l2 →
    l1.map (fun a => a.date) = l2.map (fun a => a.date) := by
  intro l1 l2 h
  induction h with
  | nil => rfl
  | cons hab _ ih => simp [hab.1, ih]

theorem bnd_counts : ∀ {l1 l2 : List ActiveDay},
    List.Forall₂ bucketNoDur l1 l2 →
    l1.map (fun a => a.sessionCount) = l2.map (fun a => a.sessionCount) := by
  intro l1 l2 h
  induction h with
  | nil => rfl
  | cons hab _ ih => simp [hab.2, ih]

theorem any_date_congr {d : Int} : ∀ {l1 l2 : List ActiveDay},
    List.Forall₂ bucketNoDur l1 l2 →
    l1.any (fun a => a.date = d) = l2.any (fun a => a.date = d) := by
  intro l1 l2 h
  induction h with
  | nil => rfl
  | cons hab _ ih => simp [List.any_cons, hab.1, ih]

theorem mapUpdate_rel {d : Int} {u1 u2 : ℚ} : ∀ {l1 l2 : List ActiveDay},
    List.Forall₂ bucketNoDur l1 l2 →
    List.Forall₂ bucketNoDur
      (l1.map (fun a => if a.date = d then
        { a with sessionCount := a.sessionCount + 1,
                 totalDurationSec := a.totalDurationSec + u1 } else a))
      (l2.map (fun a => if a.date = d then
        { a with sessionCount := a.sessionCount + 1,
                 totalDurationSec := a.totalDurationSec + u2 } else a)) := by
  intro l1 l2 h
  induction h with
  | nil => exact List.Forall₂.nil
  | cons hab htail ih =>
    rename_i a b t1 t2
    rw [List.map_cons, List.map_cons]
    refine List.Forall₂.cons ?hd ih
    by_cases hd : a.date = d
    · rw [if_pos hd, if_pos (show b.date = d by rw [← hab.1]; exact hd)]
      exact ⟨hab.1, by simp [hab.2]⟩
    · rw [if_neg hd,
        if_neg (show ¬ b.date = d from
          fun hx => hd (by rw [hab.1]; exact hx))]
      exact hab

theorem addSession_rel {l1 l2 : List ActiveDay} {d : Int} {u1 u2 : ℚ}
    (h : List.Forall₂ bucketNoDur l1 l2) :
    List.Forall₂ bucketNoDur (addSession l1 d u1) (addSession l2 d u2) := by
  unfold addSession
  rw [any_date_congr h]
  by_cases hc : l2.any (fun a => a.date = d) = true
  · rw [if_pos hc, if_pos hc]
    exact mapUpdate_rel h
  · rw [if_neg hc, if_neg hc]
    exact List.rel_append h (List.Forall₂.cons ⟨rfl, rfl⟩
      List.Forall₂.nil)

theorem groupAux_rel {db : TZDb} {tzid : String} :
    ∀ {s1 s2 : List Session} {acc1 acc2 : List ActiveDay},
      List.Forall₂ sessionNoDur s1 s2 →
      List.Forall₂ bucketNoDur acc1 acc2 →
      optionRel (List.Forall₂ bucketNoDur)
        (groupAux db tzid s1 acc1) (groupAux db tzid s2 acc2) := by
  intro s1 s2 acc1 acc2 hs
  induction hs generalizing acc1 acc2 with
  | nil => intro hacc; exact hacc
  | cons hab htail ih =>
    intro hacc
    rename_i a b t1 t2
    rw [groupAux, groupAux, hab.2]
    cases hf : toLocalDateString db b.timestamp tzid with
    | none => exact trivial
    | some d =>
      simp only []
      exact ih (addSession_rel hacc)

theorem orderedInsert_rel {a b : ActiveDay} (hab : bucketNoDur a b) :
    ∀ {l1 l2 : List ActiveDay}, List.Forall₂ bucketNoDur l1 l2 →
      List.Forall₂ bucketNoDur (List.orderedInsert dayLE a l1)
        (List.orderedInsert dayLE b l2) := by
  intro l1 l2 h
  induction h with
  | nil => exact List.Forall₂.cons hab List.Forall₂.nil
  | cons hxy htail ih =>
    rename_i x y t1 t2
    rw [List.orderedInsert, List.orderedInsert]
    by_cases hle : dayLE a x
    · have hle2 : dayLE b y := by
        unfold dayLE at *
        rw [← hab.1, ← hxy.1]
        exact hle
      rw [if_pos hle, if_pos hle2]
      exact List.Forall₂.cons hab (List.Forall₂.cons hxy htail)
    · have hle2 : ¬ dayLE b y := by
        unfold dayLE at *
        rw [← hab.1, ← hxy.1]
        exact hle
      rw [if_neg hle, if_neg hle2]
      exact List.Forall₂.cons hxy ih

theorem insertionSort_rel : ∀ {l1 l2 : List ActiveDay},
    List.Forall₂ bucketNoDur l1 l2 →
    List.Forall₂ bucketNoDur (List.insertionSort dayLE l1)
      (List.insertionSort dayLE l2) := by
  intro l1 l2 h
  induction h with
  | nil => exact List.Forall₂.nil
  | cons hab _ ih =>
    rw [List.insertionSort, List.insertionSort]
    exact orderedInsert_rel hab ih

theorem groupSessionsByDay_rel {db : TZDb} {tzid : String}
    {s1 s2 : List Session} (hs : List.Forall₂ sessionNoDur s1 s2) :
    optionRel (List.Forall₂ bucketNoDur)
      (groupSessionsByDay db s1 tzid) (groupSessionsByDay db s2 tzid) := by
  unfold groupSessionsByDay
  have := @groupAux_rel db tzid s1 s2 [] [] hs List.Forall₂.nil
  cases h1 : groupAux db tzid s1 [] with
  | none =>
    rw [h1] at this
    cases h2 : groupAux db tzid s2 [] with
    | none => exact trivial
    | some m2 => rw [h2] at this; exact absurd this (by simp [optionRel])
  | some m1 =>
    rw [h1] at this
    cases h2 : groupAux db tzid s2 [] with
    | none => rw [h2] at this; exact absurd this (by simp [optionRel])
    | some m2 =>
      rw [h2] at this
      exact insertionSort_rel this

theorem gapsOf_def (l : List ActiveDay) :
    (consecutivePairs l).map (fun p => bucketDiffDays p.1 p.2) = gapsOf l :=
  rfl

theorem gapsOf_congr : ∀ {l1 l2 : List ActiveDay},
    l1.map (fun a => a.date) = l2.map (fun a => a.date) →
    gapsOf l1 = gapsOf l2 := by
  intro l1
  induction l1 with
  | nil =>
    intro l2 h
    rw [List.map_nil] at h
    rw [List.map_eq_nil_iff.mp h.symm]
  | cons a t1 ih =>
    intro l2 h
    cases l2 with
    | nil => simp at h
    | cons b t2 =>
      simp only [List.map_cons, List.cons.injEq] at h
      obtain ⟨hab, ht⟩ := h
      cases t1 with
      | nil =>
        have ht2 : t2 = [] := by
          cases t2 with
          | nil => rfl
          | cons c u => simp at ht
        subst ht2
        rfl
      | cons c u1 =>
        cases t2 with
        | nil => simp at ht
        | cons e u2 =>
          have hce : c.date = e.date := by
            simp only [List.map_cons, List.cons.injEq] at ht
            exact ht.1
          have hgap : bucketDiffDays a c = bucketDiffDays b e := by
            unfold bucketDiffDays
            rw [hab, hce]
          have htl : gapsOf (c :: u1) = gapsOf (e :: u2) := ih ht
          show bucketDiffDays a c :: gapsOf (c :: u1) =
            bucketDiffDays b e :: gapsOf (e :: u2)
          rw [hgap, htl]

theorem longestStreakScan_eq (l : List ActiveDay) :
    longestStreakScan l = ((gapsOf l).foldl
      (fun (p : Nat × Nat) g =>
        if g = 1 then (max p.1 (p.2 + 1), p.2 + 1) else (p.1, 1))
      (1, 1)).1 := by
  unfold longestStreakScan gapsOf
  rw [List.foldl_map]

theorem map_date_getLast? : ∀ (l : List ActiveDay),
    (l.map (fun a => a.date)).getLast? =
      l.getLast?.map (fun a => a.date) := by
  intro l
  induction l with
  | nil => rfl
  | cons a t ih =>
    cases t with
    | nil => rfl
    | cons c u =>
      rw [List.map_cons, List.map_cons, List.getLast?_cons_cons,
        List.getLast?_cons_cons, ← List.map_cons]
      exact ih

theorem getLast_date_congr {l1 l2 : List ActiveDay}
    (h : l1.map (fun a => a.date) = l2.map (fun a => a.date))
    (h1 : l1 ≠ []) (h2 : l2 ≠ []) :
    (l1.getLast h1).date = (l2.getLast h2).date := by
  have e1 : (l1.map (fun a => a.date)).getLast? =
      some ((l1.getLast h1).date) := by
    rw [map_date_getLast?, List.getLast?_eq_getLast l1 h1]
    rfl
  have e2 : (l2.map (fun a => a.date)).getLast? =
      some ((l2.getLast h2).date) := by
    rw [map_date_getLast?, List.getLast?_eq_getLast l2 h2]
    rfl
  rw [h, e2] at e1
  exact (Option.some_inj.mp e1).symm

theorem calculateMetadata_congr {db : TZDb} {tzid : String} {ref : Int}
    {l1 l2 : List ActiveDay} (h : List.Forall₂ bucketNoDur l1 l2) :
    calculateMetadata db l1 ref tzid = calculateMetadata db l2 ref tzid := by
  cases h with
  | nil => rfl
  | cons hab htail =>
    rename_i a b t1 t2
    have hd := bnd_dates (List.Forall₂.cons hab htail)
    have hc := bnd_counts (List.Forall₂.cons hab htail)
    rw [calculateMetadata, calculateMetadata]
    cases hf : toLocalDateString db (some ref) tzid with
    | none => rfl
    | some refDay =>
      simp only []
      congr 1
      congr 1
      · rw [hc]
      · have := congrArg List.length hd
        simpa using this
      · rw [longestStreakScan_eq, longestStreakScan_eq, gapsOf_congr hd]
      · rw [gapsOf_def, gapsOf_def, gapsOf_congr hd]
      · rw [gapsOf_def, gapsOf_def, gapsOf_congr hd]
      · rw [getLast_date_congr hd (List.cons_ne_nil a t1)
          (List.cons_ne_nil b t2)]

theorem calculateStreakBonus_congr {db : TZDb} {tzid : String} {ref : Int}
    {l1 l2 : List ActiveDay} (h : List.Forall₂ bucketNoDur l1 l2) :
    calculateStreakBonus db l1 ref tzid =
      calculateStreakBonus db l2 ref tzid := by
  unfold calculateStreakBonus
  have hemp : l1.isEmpty = l2.isEmpty := by
    cases h with
    | nil => rfl
    | cons _ _ => rfl
  rw [hemp, bnd_dates h]

theorem find?_date_congr {x : Int} : ∀ {l1 l2 : List ActiveDay},
    List.Forall₂ bucketNoDur l1 l2 →
    optionRel bucketNoDur (l1.find? (fun a => a.date = x))
      (l2.find? (fun a => a.date = x)) := by
  intro l1 l2 h
  induction h with
  | nil => exact trivial
  | cons hab htail ih =>
    rename_i a b t1 t2
    by_cases hv : a.date = x
    · rw [List.find?_cons_of_pos _ (by simpa using hv),
        List.find?_cons_of_pos _ (by simp only [← hab.1]; simpa using hv)]
      exact hab
    · rw [List.find?_cons_of_neg _ (by simpa using hv),
        List.find?_cons_of_neg _ (by simp only [← hab.1]; simpa using hv)]
      exact ih

theorem chartEntry_congr {db : TZDb} {tzid : String} {ref : Int} {i : Nat}
    {l1 l2 : List ActiveDay} (h : List.Forall₂ bucketNoDur l1 l2) :
    chartEntry db l1 ref tzid i = chartEntry db l2 ref tzid i := by
  unfold chartEntry
  cases hf : toLocalDateString db (some (ref - (i : Int) * msPerDay))
      tzid with
  | none => rfl
  | some d =>
    simp only []
    have hrel := find?_date_congr (x := d) h
    cases h1 : l1.find? (fun a => a.date = d) with
    | none =>
      cases h2 : l2.find? (fun a => a.date = d) with
      | none => rfl
      | some v => rw [h1, h2] at hrel; exact absurd hrel (by simp [optionRel])
    | some v1 =>
      cases h2 : l2.find? (fun a => a.date = d) with
      | none => rw [h1, h2] at hrel; exact absurd hrel (by simp [optionRel])
      | some v2 =>
        rw [h1, h2] at hrel
        simp [hrel.2]

theorem traverseOpt_congr {α β : Type} {f g : α → Option β} :
    ∀ {l : List α}, (∀ a ∈ l, f a = g a) →
      traverseOpt f l = traverseOpt g l := by
  intro l
  induction l with
  | nil => intro _; rfl
  | cons a t ih =>
    intro hall
    rw [traverseOpt, traverseOpt, hall a (List.mem_cons_self a t),
      ih (fun x hx => hall x (List.mem_cons_of_mem a hx))]

theorem generateChartData_congr {db : TZDb} {tzid : String} {ref : Int}
    {l1 l2 : List ActiveDay} (h : List.Forall₂ bucketNoDur l1 l2) :
    generateChartData db l1 ref tzid = generateChartData db l2 ref tzid := by
  unfold generateChartData
  exact traverseOpt_congr (fun j _ => chartEntry_congr h)

theorem calculateScoreBreakdown_congr {l1 l2 : List ActiveDay}
    (h : List.Forall₂ bucketNoDur l1 l2) (md : ConsistencyMetadata) :
    calculateScoreBreakdown l1 md = calculateScoreBreakdown l2 md := by
  unfold calculateScoreBreakdown calculateBaseScore
  rw [List.Forall₂.length_eq h]
  unfold calculateDistributionBonus
  rw [List.Forall₂.length_eq h, gapsOf_def, gapsOf_def,
    gapsOf_congr (bnd_dates h)]

/-- C9: the output is independent of every session's `durationSec` — two
calls whose session lists agree on ids and timestamps but differ arbitrarily
in durations (missing, negative, or any rationals) return identical results,
including identical failure behavior. -/
theorem duration_independent {db : TZDb} {tzid : String} {ref : Int}
    {s1 s2 : List Session}
    (hrel : List.Forall₂ sessionNoDur s1 s2) :
    calculateConsistencyScore db ⟨s1, ref, tzid⟩ =
      calculateConsistencyScore db ⟨s2, ref, tzid⟩ := by
  have hg := @groupSessionsByDay_rel db tzid s1 s2 hrel
  rw [calculateConsistencyScore, calculateConsistencyScore]
  cases h1 : groupSessionsByDay db s1 tzid with
  | none =>
    cases h2 : groupSessionsByDay db s2 tzid with
    | none => rfl
    | some l2 => rw [h1, h2] at hg; exact absurd hg (by simp [optionRel])
  | some l1 =>
    cases h2 : groupSessionsByDay db s2 tzid with
    | none => rw [h1, h2] at hg; exact absurd hg (by simp [optionRel])
    | some l2 =>
      rw [h1, h2] at hg
      simp only []
      rw [calculateMetadata_congr hg]
      cases hmd : calculateMetadata db l2 ref tzid with
      | none => rfl
      | some md =>
        simp only []
        rw [calculateScoreBreakdown_congr hg md,
          calculateStreakBonus_congr hg, generateChartData_congr hg]

/-- Witness for C9: same two sessions, one with duration 60, one with a
missing duration and one negative duration on the other side. -/
theorem duration_independent_witness :
    List.Forall₂ sessionNoDur
      [⟨"a", some 43200000, some 60⟩, ⟨"b", some 0, none⟩]
      [⟨"a", some 43200000, none⟩, ⟨"b", some 0, some (-5)⟩] ∧
    calculateConsistencyScore jsEnv
      ⟨[⟨"a", some 43200000, some 60⟩, ⟨"b", some 0, none⟩], 43200000,
        "UTC"⟩ =
    calculateConsistencyScore jsEnv
      ⟨[⟨"a", some 43200000, none⟩, ⟨"b", some 0, some (-5)⟩], 43200000,
        "UTC"⟩ :=
  ⟨List.Forall₂.cons ⟨rfl, rfl⟩ (List.Forall₂.cons ⟨rfl, rfl⟩
      List.Forall₂.nil),
    duration_independent (List.Forall₂.cons ⟨rfl, rfl⟩
      (List.Forall₂.cons ⟨rfl, rfl⟩ List.Forall₂.nil))⟩

/-! ## Permutation invariance (C4) -/

/-- The per-bucket update `addSession` applies on a date hit. -/
def bumpDay (d : Int) (u : ℚ) (a : ActiveDay) : ActiveDay :=
  if a.date = d then
    { a with sessionCount := a.sessionCount + 1,
             totalDurationSec := a.totalDurationSec + u }
  else a

theorem addSession_eq (days : List ActiveDay) (d : Int) (u : ℚ) :
    addSession days d u =
      if days.any (fun a => a.date = d) then days.map (bumpDay d u)
      else days ++ [⟨d, 1, u⟩] := rfl

theorem bumpDay_date (d : Int) (u : ℚ) (a : ActiveDay) :
    (bumpDay d u a).date = a.date := by
  unfold bumpDay
  split <;> rfl

theorem bumpDay_other {d : Int} {a : ActiveDay} (u : ℚ) (h : ¬ a.date = d) :
    bumpDay d u a = a := by
  unfold bumpDay
  rw [if_neg h]

theorem bumpDay_comm (d1 d2 : Int) (u1 u2 : ℚ) (a : ActiveDay) :
    bumpDay d2 u2 (bumpDay d1 u1 a) = bumpDay d1 u1 (bumpDay d2 u2 a) := by
  unfold bumpDay
  split_ifs <;> simp_all <;> ring

theorem any_date (l : List ActiveDay) (d : Int) :
    l.any (fun a => a.date = d) = decide (d ∈ dates l) := by
  by_cases h : d ∈ dates l
  · rw [(addSession_any_iff l d).mpr h]
    simp [h]
  · have : ¬ (l.any (fun a => a.date = d) = true) :=
      fun hc => h ((addSession_any_iff l d).mp hc)
    rw [Bool.not_eq_true] at this
    rw [this]
    simp [h]

theorem mem_dates_addSession {acc : List ActiveDay} {d1 d2 : Int} (u : ℚ) :
    d2 ∈ dates (addSession acc d1 u) ↔ d2 ∈ dates acc ∨ d2 = d1 := by
  by_cases h : d1 ∈ dates acc
  · rw [addSession_dates_of_mem u h]
    constructor
    · exact fun hx => Or.inl hx
    · intro hx
      cases hx with
      | inl hx => exact hx
      | inr hx => rw [hx]; exact h
  · rw [addSession_dates_of_not_mem u h]
    simp [List.mem_append]

theorem dates_map_bumpDay (l : List ActiveDay) (d : Int) (u : ℚ) :
    dates (l.map (bumpDay d u)) = dates l := by
  unfold dates
  rw [List.map_map]
  apply List.map_congr_left
  intro a _
  exact bumpDay_date d u a

theorem map_bumpDay_of_not_mem {l : List ActiveDay} {d : Int} (u : ℚ)
    (h : ¬ d ∈ dates l) : l.map (bumpDay d u) = l := by
  have : ∀ a ∈ l, bumpDay d u a = a := by
    intro a ha
    refine bumpDay_other u (fun hc => h ?hm)
    rw [← hc]
    exact List.mem_map_of_mem (fun x => x.date) ha
  calc l.map (bumpDay d u) = l.map id := List.map_congr_left this
    _ = l := List.map_id l

theorem addSession_same_comm (acc : List ActiveDay) (d1 : Int) (u1 u2 : ℚ) :
    addSession (addSession acc d1 u1) d1 u2 =
      addSession (addSession acc d1 u2) d1 u1 := by
  by_cases hm : d1 ∈ dates acc
  · rw [addSession_eq acc _ u1, addSession_eq acc _ u2,
      if_pos ((addSession_any_iff acc d1).mpr hm),
      if_pos ((addSession_any_iff acc d1).mpr hm),
      addSession_eq _ _ u2, addSession_eq _ _ u1,
      if_pos (by rw [any_date, dates_map_bumpDay]; simp [hm]),
      if_pos (by rw [any_date, dates_map_bumpDay]; simp [hm]),
      List.map_map, List.map_map]
    apply List.map_congr_left
    intro a _
    exact bumpDay_comm d1 d1 u1 u2 a
  · have hany : ∀ u : ℚ, ¬ ((acc.any (fun a => a.date = d1)) = true) :=
      fun _ hc => hm ((addSession_any_iff acc d1).mp hc)
    have hmem2 : ∀ u : ℚ, d1 ∈ dates (acc ++ [⟨d1, 1, u⟩]) := by
      intro u
      unfold dates
      rw [List.map_append]
      exact List.mem_append_right _ (by simp)
    rw [addSession_eq acc _ u1, addSession_eq acc _ u2,
      if_neg (hany u1), if_neg (hany u2),
      addSession_eq _ _ u2, addSession_eq _ _ u1,
      if_pos (by rw [any_date]; simp [hmem2 u1]),
      if_pos (by rw [any_date]; simp [hmem2 u2]),
      List.map_append, List.map_append,
      map_bumpDay_of_not_mem u2 hm, map_bumpDay_of_not_mem u1 hm]
    have hb : ∀ u u' : ℚ, (([⟨d1, 1, u⟩] : List ActiveDay).map
        (bumpDay d1 u')) = [⟨d1, 2, u + u'⟩] := by
      intro u u'
      simp [bumpDay]
    rw [hb u1 u2, hb u2 u1, add_comm u1 u2]

theorem addSession_mixed_comm {acc : List ActiveDay} {d1 d2 : Int}
    (u1 u2 : ℚ) (h12 : ¬ d1 = d2) (hm1 : d1 ∈ dates acc)
    (hm2 : ¬ d2 ∈ dates acc) :
    addSession (addSession acc d1 u1) d2 u2 =
      addSession (addSession acc d2 u2) d1 u1 := by
  have hA : addSession acc d1 u1 = acc.map (bumpDay d1 u1) := by
    rw [addSession_eq, if_pos ((addSession_any_iff acc d1).mpr hm1)]
  have hB : addSession acc d2 u2 = acc ++ [⟨d2, 1, u2⟩] := by
    rw [addSession_eq, if_neg
      (fun hc => hm2 ((addSession_any_iff acc d2).mp hc))]
  rw [hA, hB]
  have hm2' : ¬ d2 ∈ dates (acc.map (bumpDay d1 u1)) := by
    rw [dates_map_bumpDay]
    exact hm2
  have hm1' : d1 ∈ dates (acc ++ [⟨d2, 1, u2⟩]) := by
    unfold dates
    rw [List.map_append]
    exact List.mem_append_left _ hm1
  rw [addSession_eq _ d2 u2, if_neg (by rw [any_date]; simp [hm2']),
    addSession_eq _ d1 u1, if_pos (by rw [any_date]; simp [hm1']),
    List.map_append]
  have hone : ([⟨d2, 1, u2⟩] : List ActiveDay).map (bumpDay d1 u1) =
      [⟨d2, 1, u2⟩] := by
    have hne : ¬ (d2 = d1) := fun hc => h12 hc.symm
    simp [bumpDay, hne]
  rw [hone]

theorem addSession_comm (acc : List ActiveDay) (d1 d2 : Int) (u1 u2 : ℚ) :
    List.Perm (addSession (addSession acc d1 u1) d2 u2)
      (addSession (addSession acc d2 u2) d1 u1) := by
  by_cases h12 : d1 = d2
  · subst h12
    rw [addSession_same_comm acc d1 u1 u2]
  · by_cases hm1 : d1 ∈ dates acc <;> by_cases hm2 : d2 ∈ dates acc
    · have hA : addSession acc d1 u1 = acc.map (bumpDay d1 u1) := by
        rw [addSession_eq, if_pos ((addSession_any_iff acc d1).mpr hm1)]
      have hB : addSession acc d2 u2 = acc.map (bumpDay d2 u2) := by
        rw [addSession_eq, if_pos ((addSession_any_iff acc d2).mpr hm2)]
      rw [hA, hB,
        addSession_eq _ d2 u2,
        if_pos (by rw [any_date, dates_map_bumpDay]; simp [hm2]),
        addSession_eq _ d1 u1,
        if_pos (by rw [any_date, dates_map_bumpDay]; simp [hm1]),
        List.map_map, List.map_map]
      have : acc.map (bumpDay d2 u2 ∘ bumpDay d1 u1) =
          acc.map (bumpDay d1 u1 ∘ bumpDay d2 u2) :=
        List.map_congr_left (fun a _ => bumpDay_comm d1 d2 u1 u2 a)
      rw [this]
    · rw [addSession_mixed_comm u1 u2 h12 hm1 hm2]
    · rw [← addSession_mixed_comm u2 u1 (fun h => h12 h.symm) hm2 hm1]
    · have hadd1 : addSession acc d1 u1 = acc ++ [⟨d1, 1, u1⟩] := by
        rw [addSession_eq, if_neg
          (fun hc => hm1 ((addSession_any_iff acc d1).mp hc))]
      have hadd2 : addSession acc d2 u2 = acc ++ [⟨d2, 1, u2⟩] := by
        rw [addSession_eq, if_neg
          (fun hc => hm2 ((addSession_any_iff acc d2).mp hc))]
      have hnm2 : ¬ d2 ∈ dates (acc ++ [⟨d1, 1, u1⟩]) := by
        unfold dates
        rw [List.map_append]
        intro hc
        cases List.mem_append.mp hc with
        | inl hx => exact hm2 hx
        | inr hx => simp at hx; exact h12 hx.symm
      have hnm1 : ¬ d1 ∈ dates (acc ++ [⟨d2, 1, u2⟩]) := by
        unfold dates
        rw [List.map_append]
        intro hc
        cases List.mem_append.mp hc with
        | inl hx => exact hm1 hx
        | inr hx => simp at hx; exact h12 hx
      rw [hadd1, hadd2,
        addSession_eq _ d2 u2, if_neg (by rw [any_date]; simp [hnm2]),
        addSession_eq _ d1 u1, if_neg (by rw [any_date]; simp [hnm1]),
        List.append_assoc, List.append_assoc]
      refine List.Perm.append_left acc ?hsw
      show List.Perm ((⟨d1, 1, u1⟩ : ActiveDay) :: [⟨d2, 1, u2⟩])
        ((⟨d2, 1, u2⟩ : ActiveDay) :: [⟨d1, 1, u1⟩])
      exact List.Perm.swap _ _ _

theorem optionRel_perm_refl (o : Option (List ActiveDay)) :
    optionRel List.Perm o o := by
  cases o with
  | none => exact trivial
  | some l => exact List.Perm.refl l

theorem optionRel_perm_trans {o1 o2 o3 : Option (List ActiveDay)}
    (h1 : optionRel List.Perm o1 o2) (h2 : optionRel List.Perm o2 o3) :
    optionRel List.Perm o1 o3 := by
  cases o1 <;> cases o2 <;> cases o3 <;>
    first
      | exact trivial
      | exact h1.elim
      | exact h2.elim
      | exact List.Perm.trans h1 h2

theorem addSession_perm {acc1 acc2 : List ActiveDay}
    (h : acc1.Perm acc2) (d : Int) (u : ℚ) :
    (addSession acc1 d u).Perm (addSession acc2 d u) := by
  rw [addSession_eq, addSession_eq]
  have hmemiff : d ∈ dates acc1 ↔ d ∈ dates acc2 :=
    (h.map (fun a => a.date)).mem_iff
  have hany : acc1.any (fun a => a.date = d) =
      acc2.any (fun a => a.date = d) := by
    rw [any_date, any_date]
    by_cases hm : d ∈ dates acc2
    · simp [hm, hmemiff.mpr hm]
    · have hm1 : d ∉ dates acc1 := fun hc => hm (hmemiff.mp hc)
      simp [hm, hm1]
  rw [hany]
  by_cases hc : acc2.any (fun a => a.date = d) = true
  · rw [if_pos hc, if_pos hc]
    exact h.map _
  · rw [if_neg hc, if_neg hc]
    exact h.append_right _

theorem groupAux_acc_perm {db : TZDb} {tzid : String} :
    ∀ (s : List Session) {acc1 acc2 : List ActiveDay}, acc1.Perm acc2 →
      optionRel List.Perm (groupAux db tzid s acc1)
        (groupAux db tzid s acc2) := by
  intro s
  induction s with
  | nil => intro acc1 acc2 h; exact h
  | cons sess rest ih =>
    intro acc1 acc2 h
    rw [groupAux, groupAux]
    cases hf : toLocalDateString db sess.timestamp tzid with
    | none => exact trivial
    | some d =>
      simp only []
      exact ih (addSession_perm h d _)

theorem groupAux_perm {db : TZDb} {tzid : String} {s1 s2 : List Session}
    (hp : s1.Perm s2) :
    ∀ acc, optionRel List.Perm (groupAux db tzid s1 acc)
      (groupAux db tzid s2 acc) := by
  induction hp with
  | nil => intro acc; exact optionRel_perm_refl _
  | cons x hp ih =>
    intro acc
    rw [groupAux, groupAux]
    cases hf : toLocalDateString db x.timestamp tzid with
    | none => exact trivial
    | some d =>
      simp only []
      exact ih _
  | swap x y l =>
    intro acc
    rw [groupAux, groupAux]
    cases hfy : toLocalDateString db y.timestamp tzid with
    | none =>
      simp only []
      cases hfx : toLocalDateString db x.timestamp tzid with
      | none => exact trivial
      | some dx =>
        simp only []
        rw [groupAux, hfy]
        exact trivial
    | some dy =>
      simp only []
      cases hfx : toLocalDateString db x.timestamp tzid with
      | none =>
        rw [groupAux, hfx]
        exact trivial
      | some dx =>
        simp only []
        rw [groupAux, groupAux, hfx, hfy]
        simp only []
        exact groupAux_acc_perm l (addSession_comm acc dy dx _ _)
  | trans h1 h2 ih1 ih2 =>
    intro acc
    exact optionRel_perm_trans (ih1 acc) (ih2 acc)

theorem pairwise_lt_of_sorted_nodup {l : List ActiveDay}
    (hs : List.Sorted dayLE l) (hn : (dates l).Nodup) :
    List.Pairwise dayLT l := by
  have hne : List.Pairwise (fun a b : ActiveDay => a.date ≠ b.date) l := by
    unfold dates List.Nodup at hn
    exact List.pairwise_map.mp hn
  exact (hs.and hne).imp (fun hab => lt_of_le_of_ne hab.1 hab.2)

theorem insertionSort_nodup_dates {m : List ActiveDay}
    (hn : (dates m).Nodup) :
    (dates (List.insertionSort dayLE m)).Nodup := by
  have hperm : List.Perm (dates (List.insertionSort dayLE m)) (dates m) := by
    unfold dates
    exact (List.perm_insertionSort dayLE m).map _
  exact hperm.nodup_iff.mpr hn

theorem groupSessionsByDay_perm_eq {db : TZDb} {tzid : String}
    {s1 s2 : List Session} (hp : s1.Perm s2) :
    groupSessionsByDay db s1 tzid = groupSessionsByDay db s2 tzid := by
  have hg := @groupAux_perm db tzid s1 s2 hp []
  unfold groupSessionsByDay
  cases h1 : groupAux db tzid s1 [] with
  | none =>
    cases h2 : groupAux db tzid s2 [] with
    | none => rfl
    | some m2 => rw [h1, h2] at hg; exact absurd hg (by simp [optionRel])
  | some m1 =>
    cases h2 : groupAux db tzid s2 [] with
    | none => rw [h1, h2] at hg; exact absurd hg (by simp [optionRel])
    | some m2 =>
      rw [h1, h2] at hg
      have hn1 : (dates m1).Nodup :=
        groupAux_nodup db tzid s1 [] m1 h1 (by simp [dates])
      have hn2 : (dates m2).Nodup :=
        groupAux_nodup db tzid s2 [] m2 h2 (by simp [dates])
      have hperm : (List.insertionSort dayLE m1).Perm
          (List.insertionSort dayLE m2) :=
        ((List.perm_insertionSort dayLE m1).trans hg).trans
          (List.perm_insertionSort dayLE m2).symm
      have hp1 : List.Pairwise dayLT (List.insertionSort dayLE m1) :=
        pairwise_lt_of_sorted_nodup (List.sorted_insertionSort dayLE m1)
          (insertionSort_nodup_dates hn1)
      have hp2 : List.Pairwise dayLT (List.insertionSort dayLE m2) :=
        pairwise_lt_of_sorted_nodup (List.sorted_insertionSort dayLE m2)
          (insertionSort_nodup_dates hn2)
      show some (List.insertionSort dayLE m1) =
        some (List.insertionSort dayLE m2)
      rw [List.eq_of_perm_of_sorted hperm hp1 hp2]

/-- C4: the output of `calculateConsistencyScore` is invariant under
permutation of the input session list — same score, explanations (text and
order), chartData, metadata and breakdown, and the same failure behavior.
Determinism for identical inputs is the special case of the identity
permutation (the embedding is a pure function). -/
theorem permutation_invariant {db : TZDb} {tzid : String} {ref : Int}
    {s1 s2 : List Session} (hp : s1.Perm s2) :
    calculateConsistencyScore db ⟨s1, ref, tzid⟩ =
      calculateConsistencyScore db ⟨s2, ref, tzid⟩ := by
  rw [calculateConsistencyScore, calculateConsistencyScore,
    groupSessionsByDay_perm_eq hp]

/-- Witness for C4: two sessions in both orders give identical results. -/
theorem permutation_invariant_witness :
    List.Perm
      [(⟨"a", some 43200000, some 60⟩ : Session), ⟨"b", some 0, some 30⟩]
      [⟨"b", some 0, some 30⟩, ⟨"a", some 43200000, some 60⟩] ∧
    calculateConsistencyScore jsEnv
      ⟨[⟨"a", some 43200000, some 60⟩, ⟨"b", some 0, some 30⟩],
        43200000, "UTC"⟩ =
    calculateConsistencyScore jsEnv
      ⟨[⟨"b", some 0, some 30⟩, ⟨"a", some 43200000, some 60⟩],
        43200000, "UTC"⟩ :=
  ⟨List.Perm.swap _ _ _, permutation_invariant (List.Perm.swap _ _ _)⟩
